import Mathlib

/-!
Verification of the `gotype` resolution engine (`src/ast.go`) against its
natural-language specification.

The Go source is shallowly embedded: the `go/ast` syntax nodes that
`ast.go` inspects become the inductive `Expr`/`Field`/`GoFile` types, the
canonical type model (`Type` in Go, a struct of ten optional pointer
fields) becomes the mutually inductive `GoType` family with one `Option`
per Go pointer field, and the external collaborators (package source
locator, file opening and parsing) become an explicit `Env` record.

The resolution engine is genuinely non-terminating on cyclic interface
embeddings (acknowledged by the spec), so every recursive function of the
engine carries a `fuel : Nat` argument; running out of fuel produces the
distinguished error `Err.outOfFuel`, which corresponds to no Go behaviour
and appears in no theorem about concrete runs (concrete witnesses simply
use enough fuel).  Go runtime panics (nil-pointer dereference, index out
of range, failed type assertion) are modelled by the distinguished error
`Err.runtimePanic`, kept separate from the `fmt.Errorf` error returns so
that "fails with an error" and "crashes" remain distinguishable.
-/

set_option maxHeartbeats 1000000

namespace Gotype

/-- Go `strings.HasSuffix` on character lists. -/
def goHasSuffix (s suf : String) : Bool :=
  suf.toList.isSuffixOf s.toList

/-- Go `strings.HasPrefix` on character lists. -/
def goHasPre (s pre : String) : Bool :=
  pre.toList.isPrefixOf s.toList

/-- Go `strings.TrimSuffix`: drops one trailing occurrence of the suffix. -/
def goTrimSuffixStr (s suf : String) : String :=
  if goHasSuffix s suf then
    String.mk (s.toList.take (s.toList.length - suf.toList.length))
  else s

/-- Go `strings.TrimPrefix`: drops one leading occurrence. -/
def goTrimHead (s pre : String) : String :=
  if goHasPre s pre then String.mk (s.toList.drop pre.toList.length) else s

/-- Occurrence of a pattern anywhere in a character list: the pattern is
a leading segment of some tail. -/
def charsContains : List Char → List Char → Bool
  | [], pat => pat.isEmpty
  | c :: rest, pat => pat.isPrefixOf (c :: rest) || charsContains rest pat

/-- Go `strings.Contains s sub`: `sub` occurs somewhere in `s`. -/
def goContains (s sub : String) : Bool :=
  charsContains s.toList sub.toList

/-- Go `path.Base`: last element of a slash-separated path, with trailing
slashes removed; `"."` for the empty path, `"/"` for all-slash paths. -/
def pathBase (p : String) : String :=
  if p = "" then "."
  else
    let rcs := p.toList.reverse.dropWhile (fun c => c = '/')
    let base := rcs.takeWhile (fun c => c ≠ '/')
    if base.isEmpty then "/" else String.mk base.reverse

/-- Modelled from the spec: the `parseInt` helper used by
`generateTypeFromArrayType` is declared in a file of this repository that
is not under `src/`.  The spec (§4.4) requires a fixed-array length to be
"a literal non-negative integer token"; the model accepts exactly the
non-empty all-decimal-digit tokens and yields their value. -/
def parseInt (s : String) : Option Nat :=
  let cs := s.toList
  if cs.isEmpty then none
  else if cs.all Char.isDigit then
    some (cs.foldl (fun acc c => acc * 10 + (c.toNat - 48)) 0)
  else none

/-- Modelled from the spec: the Primitive Kind enumeration (§3).  The
constant declarations (`PrimitiveKindBool` etc.) are in a file of this
repository that is not under `src/`; the enumeration members are taken
from the spec list. -/
inductive PrimitiveKind where
  | bool | byte | rune | int | int8 | int16 | int32 | int64
  | uint | uint8 | uint16 | uint32 | uint64 | uintptr
  | float32 | float64 | complex64 | complex128 | string | error
deriving DecidableEq, Repr

/-- Modelled from the spec: the string value of each `PrimitiveKind`
constant (the Go type-name literals that `generateTypeFromIdent` switches
on).  These are the surface names of the analyzed language primitive
types, per the Primitive Kind enumeration of the spec and §8 property 1. -/
def PrimitiveKind.goName : PrimitiveKind → String
  | .bool => "bool" | .byte => "byte" | .rune => "rune" | .int => "int"
  | .int8 => "int8" | .int16 => "int16" | .int32 => "int32" | .int64 => "int64"
  | .uint => "uint" | .uint8 => "uint8" | .uint16 => "uint16" | .uint32 => "uint32"
  | .uint64 => "uint64" | .uintptr => "uintptr" | .float32 => "float32"
  | .float64 => "float64" | .complex64 => "complex64" | .complex128 => "complex128"
  | .string => "string" | .error => "error"

/-- The fixed primitive-kind name list (including the literal "error")
that `generateTypeFromIdent` matches identifiers against. -/
def goPrimNames : List String :=
  ["bool", "byte", "rune", "int", "int8", "int16", "int32", "int64",
   "uint", "uint8", "uint16", "uint32", "uint64", "uintptr",
   "float32", "float64", "complex64", "complex128", "string", "error"]

/-- Errors of the engine.  The named constructors correspond 1:1 to the
error productions of `src/ast.go` (the `fmt.Errorf` sites), plus:
`sourceFinder` for errors propagated from the external locator,
`openOrParse` for the `parseAstFile` "cannot open file"/"cannot parse go
code" errors, `runtimePanic` for Go runtime panics (which are crashes,
not returned errors), and `outOfFuel`, a modelling artifact standing for
the unbounded re-entrant recursion the spec warns about (§5). -/
inductive Err where
  | sourceFinder (msg : String)
  | openOrParse (file : String)
  | declarationNotFound (name : String)
  | unrecognizedType
  | unrecognizedExpr
  | unrecognizedIdentifier (aliasName : String)
  | unrecognizedArrayLength
  | runtimePanic (site : String)
  | outOfFuel
deriving DecidableEq, Repr

/-- Go `ast.ChanType.Dir` as observed by `generateTypeFromChanType`:
receive-only, send-only, or bidirectional (`SEND|RECV`, the default). -/
inductive AstChanDir where
  | send | recv | sendRecv
deriving DecidableEq, Repr

mutual
/-- The subset of `go/ast` expression shapes that `generateTypeFromExpr`
dispatches on: `SelectorExpr`, `Ident`, `StarExpr`, `ArrayType` (length
optional; a present length is an arbitrary expression, e.g. `BasicLit`),
`FuncType`, `MapType`, `ChanType`, `StructType`, `InterfaceType`, plus
`BasicLit` and `Ellipsis` (which the code inspects in specific places)
and `unknownExpr` standing for every other `ast.Expr` shape (all of which
fall into the default "unrecognized type" branch). -/
inductive Expr where
  | ident (name : String)
  | selectorExpr (x : Expr) (sel : String)
  | starExpr (x : Expr)
  | arrayType (len : Option Expr) (elt : Expr)
  | basicLit (value : String)
  | ellipsis (elt : Expr)
  | funcType (params : List Field) (results : Option (List Field))
  | mapType (key : Expr) (value : Expr)
  | chanType (dir : AstChanDir) (value : Expr)
  | structType (fields : Option (List Field))
  | interfaceType (methods : Option (List Field))
  | unknownExpr (tag : String)

/-- Go `ast.Field`: zero or more names sharing one type expression.
`Option (List Field)` at use sites renders a possibly-nil
`*ast.FieldList`. -/
inductive Field where
  | mk (names : List String) (typ : Expr)
end

/-- Names of a field group (Go `field.Names`). -/
def Field.names : Field → List String
  | .mk ns _ => ns

/-- Type expression of a field group (Go `field.Type`). -/
def Field.typ : Field → Expr
  | .mk _ t => t

/-- Go `ast.ImportSpec` / `ast.TypeSpec` inside a `GenDecl`, plus a
catch-all for other spec kinds (`ValueSpec`).  `pathValue` is the raw
`importSpec.Path.Value` token, quotes included, exactly as the parser
yields it. -/
inductive GoSpec where
  | importSpec (pathValue : String) (name : Option String)
  | typeSpec (name : String) (typ : Expr)
  | otherSpec

/-- Top-level declarations of a file: `GenDecl` (imports, type
declarations, ...) or any other declaration shape (`FuncDecl`, ...). -/
inductive Decl where
  | genDecl (specs : List GoSpec)
  | otherDecl

/-- A parsed file (`*ast.File`): its declared package name
(`file.Name.Name`) and top-level declarations. -/
structure GoFile where
  name : String
  decls : List Decl

/-- A type request (`TypeSpec` in the repository): the struct itself is
declared in a file not under `src/`, but its two fields `PackagePath` and
`Name` are fixed by every use in `src/ast.go`. -/
structure TypeSpec where
  packagePath : String
  name : String
deriving DecidableEq, Repr

/-- The per-file import table, Go `map[string]string`.  Rendered as an
association list where later insertions are prepended, so that
first-match lookup realises the Go map overwrite semantics. -/
def ImportMap := List (String × String)

/-- Go map read with ok: `v, ok := m[k]`. -/
def mapLookup (m : ImportMap) (k : String) : Option String :=
  (m.find? (fun p => p.1 == k)).map (fun p => p.2)

/-- Go map read without ok: `m[k]` yields the zero value `""` for a
missing key. -/
def mapGet (m : ImportMap) (k : String) : String :=
  (mapLookup m k).getD ""

mutual
/-- The canonical type model.  In the source, `Type` is one struct with
ten optional pointer fields (one per variant); the struct declaration is
in a file not under `src/`, but every field name and payload shape is
fixed by its uses in `src/ast.go`.  `Type` is a reserved word in Lean, so
the Lean name is `GoType`. -/
inductive GoType where
  | mk (primitiveType : Option PrimitiveType) (qualType : Option QualType)
       (ptrType : Option PtrType) (sliceType : Option SliceType)
       (arrayType : Option ArrayType) (mapType : Option MapType)
       (chanType : Option ChanType) (funcType : Option FuncType)
       (structType : Option StructType) (interfaceType : Option InterfaceType)

/-- Go `PrimitiveType{Kind}`. -/
inductive PrimitiveType where
  | mk (kind : PrimitiveKind)

/-- Go `QualType{Package, ShortPackagePath, Name}`. -/
inductive QualType where
  | mk (package : String) (shortPackagePath : String) (name : String)

/-- Go `PtrType{Elem}`. -/
inductive PtrType where
  | mk (elem : GoType)

/-- Go `SliceType{Elem}`. -/
inductive SliceType where
  | mk (elem : GoType)

/-- Go `ArrayType{Len, Elem}`. -/
inductive ArrayType where
  | mk (len : Nat) (elem : GoType)

/-- Go `MapType{Key, Elem}`. -/
inductive MapType where
  | mk (key : GoType) (elem : GoType)

/-- Direction constants `ChanTypeDirRecv/Send/Both` (declared outside
`src/`, fixed by their uses in `generateTypeFromChanType`). -/
inductive ChanTypeDir where
  | recv | send | both

/-- Go `ChanType{Dir, Elem}`. -/
inductive ChanType where
  | mk (dir : ChanTypeDir) (elem : GoType)

/-- Go `FuncType{Inputs, Outputs, IsVariadic}`. -/
inductive FuncType where
  | mk (inputs : List TypeField) (outputs : List TypeField) (isVariadic : Bool)

/-- Go `TypeField{Name, Type}`. -/
inductive TypeField where
  | mk (name : String) (typ : GoType)

/-- Go `StructType{Fields}`. -/
inductive StructType where
  | mk (fields : List TypeField)

/-- Go `InterfaceType{Methods}`. -/
inductive InterfaceType where
  | mk (methods : List InterfaceTypeMethod)

/-- Go `InterfaceTypeMethod{Name, Func}`. -/
inductive InterfaceTypeMethod where
  | mk (name : String) (func : FuncType)
end

/-- Field accessor: `Type.PrimitiveType`. -/
def GoType.primitiveType : GoType → Option PrimitiveType
  | .mk p _ _ _ _ _ _ _ _ _ => p

/-- Field accessor: `Type.QualType`. -/
def GoType.qualType : GoType → Option QualType
  | .mk _ q _ _ _ _ _ _ _ _ => q

/-- Field accessor: `Type.PtrType`. -/
def GoType.ptrType : GoType → Option PtrType
  | .mk _ _ pt _ _ _ _ _ _ _ => pt

/-- Field accessor: `Type.SliceType`. -/
def GoType.sliceType : GoType → Option SliceType
  | .mk _ _ _ s _ _ _ _ _ _ => s

/-- Field accessor: `Type.ArrayType`. -/
def GoType.arrayType : GoType → Option ArrayType
  | .mk _ _ _ _ a _ _ _ _ _ => a

/-- Field accessor: `Type.MapType`. -/
def GoType.mapType : GoType → Option MapType
  | .mk _ _ _ _ _ m _ _ _ _ => m

/-- Field accessor: `Type.ChanType`. -/
def GoType.chanType : GoType → Option ChanType
  | .mk _ _ _ _ _ _ c _ _ _ => c

/-- Field accessor: `Type.FuncType`. -/
def GoType.funcType : GoType → Option FuncType
  | .mk _ _ _ _ _ _ _ f _ _ => f

/-- Field accessor: `Type.StructType`. -/
def GoType.structType : GoType → Option StructType
  | .mk _ _ _ _ _ _ _ _ s _ => s

/-- Field accessor: `Type.InterfaceType`. -/
def GoType.interfaceType : GoType → Option InterfaceType
  | .mk _ _ _ _ _ _ _ _ _ it => it

/-- Accessor: `FuncType.Inputs`. -/
def FuncType.inputs : FuncType → List TypeField
  | .mk ins _ _ => ins

/-- Accessor: `FuncType.Outputs`. -/
def FuncType.outputs : FuncType → List TypeField
  | .mk _ outs _ => outs

/-- Accessor: `FuncType.IsVariadic`. -/
def FuncType.isVariadic : FuncType → Bool
  | .mk _ _ v => v

/-- Accessor: `TypeField.Name`. -/
def TypeField.name : TypeField → String
  | .mk n _ => n

/-- Accessor: `TypeField.Type`. -/
def TypeField.typ : TypeField → GoType
  | .mk _ t => t

/-- Accessor: `StructType.Fields`. -/
def StructType.fields : StructType → List TypeField
  | .mk fs => fs

/-- Accessor: `InterfaceType.Methods`. -/
def InterfaceType.methods : InterfaceType → List InterfaceTypeMethod
  | .mk ms => ms

/-- Accessor: `InterfaceTypeMethod.Name`. -/
def InterfaceTypeMethod.name : InterfaceTypeMethod → String
  | .mk n _ => n

/-- Accessor: `InterfaceTypeMethod.Func`. -/
def InterfaceTypeMethod.func : InterfaceTypeMethod → FuncType
  | .mk _ f => f

/-- The Go zero value `Type{}`: all variant fields nil. -/
def zeroGoType : GoType :=
  .mk none none none none none none none none none none

/-- Go composite literal `Type{PrimitiveType: &PrimitiveType{Kind: k}}`. -/
def GoType.ofPrim (k : PrimitiveKind) : GoType :=
  .mk (some (.mk k)) none none none none none none none none none

/-- Go composite literal `Type{QualType: &q}`. -/
def GoType.ofQual (q : QualType) : GoType :=
  .mk none (some q) none none none none none none none none

/-- Go composite literal `Type{PtrType: &p}`. -/
def GoType.ofPtr (p : PtrType) : GoType :=
  .mk none none (some p) none none none none none none none

/-- Go composite literal `Type{SliceType: &s}`. -/
def GoType.ofSlice (s : SliceType) : GoType :=
  .mk none none none (some s) none none none none none none

/-- Go composite literal `Type{ArrayType: &a}`. -/
def GoType.ofArray (a : ArrayType) : GoType :=
  .mk none none none none (some a) none none none none none

/-- Go composite literal `Type{MapType: &m}`. -/
def GoType.ofMap (m : MapType) : GoType :=
  .mk none none none none none (some m) none none none none

/-- Go composite literal `Type{ChanType: &c}`. -/
def GoType.ofChan (c : ChanType) : GoType :=
  .mk none none none none none none (some c) none none none

/-- Go composite literal `Type{FuncType: &f}`. -/
def GoType.ofFunc (f : FuncType) : GoType :=
  .mk none none none none none none none (some f) none none

/-- Go composite literal `Type{StructType: &s}`. -/
def GoType.ofStruct (s : StructType) : GoType :=
  .mk none none none none none none none none (some s) none

/-- Go composite literal `Type{InterfaceType: &i}`. -/
def GoType.ofInterface (i : InterfaceType) : GoType :=
  .mk none none none none none none none none none (some i)

/-- Number of populated optional fields contributed by one field. -/
def optCount {α : Type} : Option α → Nat
  | none => 0
  | some _ => 1

mutual
/-- Well-formedness of a canonical type value: exactly one of the ten
variant fields is populated, recursively at every nested type. -/
def GoType.wf : GoType → Bool
  | .mk p q pt sl ar mp ch fn st it =>
      (optCount p + optCount q + optCount pt + optCount sl + optCount ar +
        optCount mp + optCount ch + optCount fn + optCount st + optCount it == 1)
      && wfOptPtr pt && wfOptSlice sl && wfOptArray ar && wfOptMap mp
      && wfOptChan ch && wfOptFunc fn && wfOptStruct st && wfOptInterface it

/-- Well-formedness inside an optional pointer payload. -/
def wfOptPtr : Option PtrType → Bool
  | none => true
  | some (.mk e) => e.wf

/-- Well-formedness inside an optional slice payload. -/
def wfOptSlice : Option SliceType → Bool
  | none => true
  | some (.mk e) => e.wf

/-- Well-formedness inside an optional array payload. -/
def wfOptArray : Option ArrayType → Bool
  | none => true
  | some (.mk _ e) => e.wf

/-- Well-formedness inside an optional map payload. -/
def wfOptMap : Option MapType → Bool
  | none => true
  | some (.mk k v) => k.wf && v.wf

/-- Well-formedness inside an optional channel payload. -/
def wfOptChan : Option ChanType → Bool
  | none => true
  | some (.mk _ e) => e.wf

/-- Well-formedness inside an optional function payload. -/
def wfOptFunc : Option FuncType → Bool
  | none => true
  | some f => f.wf

/-- Well-formedness of a function signature: all input and output field
types are well-formed. -/
def FuncType.wf : FuncType → Bool
  | .mk ins outs _ => wfFields ins && wfFields outs

/-- Well-formedness of a list of named fields. -/
def wfFields : List TypeField → Bool
  | [] => true
  | .mk _ t :: rest => t.wf && wfFields rest

/-- Well-formedness inside an optional struct payload. -/
def wfOptStruct : Option StructType → Bool
  | none => true
  | some (.mk fs) => wfFields fs

/-- Well-formedness inside an optional interface payload. -/
def wfOptInterface : Option InterfaceType → Bool
  | none => true
  | some (.mk ms) => wfMethods ms

/-- Well-formedness of a list of interface methods. -/
def wfMethods : List InterfaceTypeMethod → Bool
  | [] => true
  | .mk _ f :: rest => f.wf && wfMethods rest
end

/-- The external collaborators of the engine: the package source locator
(`sourceFinder.GetPackageSourceFiles`) and file opening plus parsing
(`parseAstFile`, whose "cannot open file" and "cannot parse go code"
failures are both `Err.openOrParse`). -/
structure Env where
  getPackageSourceFiles : String → Except Err (List String)
  parseAstFile : String → Except Err GoFile

/-- Go `getImportNameFromPackagePath`: default import alias from the
final path segment, stripped at the first dot (Go
`strings.Split(base, ".")[0]` is the segment before the first dot). -/
def getImportNameFromPackagePath (packagePath : String) : String :=
  let base := pathBase packagePath
  if base = "" then ""
  else String.mk (base.toList.takeWhile (fun c => c ≠ '.'))

/-- Import-table entries contributed by the spec list of one `GenDecl`: for
each `ImportSpec`, unquote the path, compute the default alias (or take
the explicit alias token), and insert.  Insertion prepends, so a later
duplicate alias shadows an earlier one under first-match lookup, exactly
like a Go map assignment. -/
def addImportSpecs (m : ImportMap) (specs : List GoSpec) : ImportMap :=
  specs.foldl
    (fun acc s =>
      match s with
      | .importSpec pathValue nameTok =>
          let importPath := goTrimHead (goTrimSuffixStr pathValue "\"") "\""
          let importName :=
            match nameTok with
            | some nm => nm
            | none => getImportNameFromPackagePath importPath
          (importName, importPath) :: acc
      | _ => acc)
    m

/-- Import-table entries of all `GenDecl`s of a file, in declaration
order. -/
def importEntries (decls : List Decl) : ImportMap :=
  decls.foldl
    (fun acc d =>
      match d with
      | .genDecl specs => addImportSpecs acc specs
      | .otherDecl => acc)
    []

/-- Go `generateImportMap`: the per-file import table, plus the synthetic
self-reference entry `packagePath + "__short" -> file.Name.Name`, added
only when the declared package name does not contain `"_test"`. -/
def generateImportMap (packagePath : String) (file : GoFile) : ImportMap :=
  let importMap := importEntries file.decls
  if goContains file.name "_test" then importMap
  else (packagePath ++ "__short", file.name) :: importMap

/-- First `TypeSpec` named `name` in a spec list. -/
def findTypeSpec : List GoSpec → String → Option Expr
  | [], _ => none
  | .typeSpec n t :: rest, name =>
      if n = name then some t else findTypeSpec rest name
  | _ :: rest, name => findTypeSpec rest name

/-- Go `getDeclarationByName`: linear scan of the `GenDecl` list of the file for
the first type declaration with the requested name; yields its right-hand
type expression. -/
def getDeclarationByName (f : GoFile) (name : String) : Option Expr :=
  go f.decls
where
  /-- Scan the declaration list in order. -/
  go : List Decl → Option Expr
  | [] => none
  | .genDecl specs :: rest =>
      match findTypeSpec specs name with
      | some t => some t
      | none => go rest
  | .otherDecl :: rest => go rest

/-- Go `generateTypeFromIdent`: the identifier is switched (by exact
string equality) against the primitive-kind name constants and the
literal "error"; any other identifier falls through to the `QualType`
fallback stamped with the requesting package and the import table
self-alias entry (a bare Go map read: missing key yields `""`).  The
function returns `Type`, not `(Type, error)`: it cannot fail. -/
def generateTypeFromIdent (name : String) (packagePath : String)
    (importMap : ImportMap) : GoType :=
  match name with
  | "bool" => .ofPrim .bool
  | "byte" => .ofPrim .byte
  | "rune" => .ofPrim .rune
  | "int" => .ofPrim .int
  | "int8" => .ofPrim .int8
  | "int16" => .ofPrim .int16
  | "int32" => .ofPrim .int32
  | "int64" => .ofPrim .int64
  | "uint" => .ofPrim .uint
  | "uint8" => .ofPrim .uint8
  | "uint16" => .ofPrim .uint16
  | "uint32" => .ofPrim .uint32
  | "uint64" => .ofPrim .uint64
  | "uintptr" => .ofPrim .uintptr
  | "float32" => .ofPrim .float32
  | "float64" => .ofPrim .float64
  | "complex64" => .ofPrim .complex64
  | "complex128" => .ofPrim .complex128
  | "string" => .ofPrim .string
  | "error" => .ofPrim .error
  | _ =>
      .ofQual (.mk packagePath (mapGet importMap (packagePath ++ "__short")) name)

/-- Go `generateTypeFromSelectorExpr`: the left-hand side must be a bare
identifier ("unrecognized expr" otherwise) naming a known import alias
("unrecognized identifier" otherwise); yields a `QualType`. -/
def generateTypeFromSelectorExpr (x : Expr) (sel : String)
    (importMap : ImportMap) : Except Err GoType :=
  match x with
  | .ident shortImport =>
      match mapLookup importMap shortImport with
      | none => .error (.unrecognizedIdentifier shortImport)
      | some importPath => .ok (.ofQual (.mk importPath shortImport sel))
  | _ => .error .unrecognizedExpr

/-- The loop of Go `getNamesFromExpr`, with the running counter `i` of unnamed
entries made explicit: a group with explicit names contributes those
names (counter untouched); a group with no names contributes one
synthesized `pre + (i+1)` name and advances the counter. -/
def getNamesFromExprAux : List Field → String → Nat → List String
  | [], _, _ => []
  | .mk [] _ :: rest, pre, i =>
      (pre ++ toString (i + 1)) :: getNamesFromExprAux rest pre (i + 1)
  | .mk ns _ :: rest, pre, i => ns ++ getNamesFromExprAux rest pre i

/-- Go `getNamesFromExpr`: one name per emitted field, counter starting
at zero (so the first synthesized name is `pre + "1"`). -/
def getNamesFromExpr (params : List Field) (pre : String) : List String :=
  getNamesFromExprAux params pre 0

/-- Go `getInputNamesFromAst`. -/
def getInputNamesFromAst (inputs : List Field) : List String :=
  getNamesFromExpr inputs "arg"

/-- Go `getOutputNamesFromAst`. -/
def getOutputNamesFromAst (outputs : List Field) : List String :=
  getNamesFromExpr outputs "out"

/-- The `for range field.Names` inner loop of `generateTypeFromFieldList`
for a named group: emits `k` fields  reading `names[i]`, `names[i+1]`,
..., all sharing the already-lowered type.  An out-of-range read is a Go
runtime panic. -/
def namedFieldsFromNames (names : List String) (i : Nat) (k : Nat)
    (t : GoType) : Except Err (List TypeField) :=
  match k with
  | 0 => .ok []
  | k' + 1 =>
      match names[i]? with
      | none => .error (.runtimePanic "index out of range")
      | some nm => (namedFieldsFromNames names (i + 1) k' t).map (fun tfs => .mk nm t :: tfs)

/-- The Ellipsis check in the loop of `generateTypeFromFieldList`:
`if v, ok := field.Type.(*ast.Ellipsis); ok` marks the list variadic and
replaces the type expression by the one inside the marker. -/
def unwrapEllipsis : Expr → Bool × Expr
  | .ellipsis elt => (true, elt)
  | e => (false, e)

/-- Go `groupTypeSpecByPackage`: requests grouped by package, names kept
in request order within each group.  (Go iterates the resulting map in
unspecified order; the model fixes first-occurrence order, which is
observationally equivalent for the results, since every package is
resolved independently and results are re-assembled by request.) -/
def groupTypeSpecByPackage (typeSpecs : List TypeSpec) : List (String × List String) :=
  typeSpecs.foldl
    (fun acc s =>
      if acc.any (fun p => p.1 == s.packagePath) then
        acc.map (fun p => if p.1 == s.packagePath then (p.1, p.2 ++ [s.name]) else p)
      else acc ++ [(s.packagePath, [s.name])])
    []

/-- The collapse of a name list into the `remainingNames` set of
`generateTypesInSinglePackage` (a Go `map[string]struct\x7b\x7d`), fixed
to first-occurrence order. -/
def dedupFirst (names : List String) : List String :=
  names.foldl (fun acc n => if n ∈ acc then acc else acc ++ [n]) []

/-- Lookup in the per-package `resultMap` (Go `map[string]Type`). -/
def resultLookup (rm : List (String × GoType)) (k : String) : Option GoType :=
  (rm.find? (fun p => p.1 == k)).map (fun p => p.2)

/-- Lookup in the batch `resultMap` (Go `map[TypeSpec]Type`). -/
def specLookup (rm : List (TypeSpec × GoType)) (k : TypeSpec) : Option GoType :=
  (rm.find? (fun p => p.1 == k)).map (fun p => p.2)

mutual
/-- Go `GenerateTypesFromSpecs`, the batch-resolution entry point: group
the requests by package, resolve each package, collect the per-request
results into `resultMap`, and re-assemble them in original request order
(a missing key would yield the Go zero value `Type\x7b\x7d`).  Every
recursive call of the engine decreases `fuel`; `fuel 0` is the
`outOfFuel` modelling artifact (see the header comment). -/
def generateTypesFromSpecs (env : Env) (fuel : Nat) (typeSpecs : List TypeSpec) :
    Except Err (List GoType) :=
  match fuel with
  | 0 => .error .outOfFuel
  | n + 1 =>
      (resolveGroups env n (groupTypeSpecByPackage typeSpecs)).map
        (fun pairs => typeSpecs.map (fun s => (specLookup pairs s).getD zeroGoType))
termination_by (fuel, 0)

/-- The `for packagePath, specs := range packagePathToSpecs` loop of
`GenerateTypesFromSpecs`: resolve each package group and record one
`resultMap` binding per (request, result) pair. -/
def resolveGroups (env : Env) (fuel : Nat) (groups : List (String × List String)) :
    Except Err (List (TypeSpec × GoType)) :=
  match groups with
  | [] => .ok []
  | (packagePath, names) :: rest =>
      match fuel with
      | 0 => .error .outOfFuel
      | n + 1 =>
          (generateTypesInSinglePackage env n packagePath names).bind
            (fun types =>
              (resolveGroups env (n + 1) rest).map
                (fun more =>
                  ((names.zip types).map (fun p => (TypeSpec.mk packagePath p.1, p.2))) ++ more))
termination_by (fuel, groups.length)

/-- Go `generateTypesInSinglePackage`: obtain the source files of the package
from the locator, scan them against the working set of still-wanted
names, fail with "cannot find definition of ..." if any name survives the
scan, and otherwise read the results back in request order. -/
def generateTypesInSinglePackage (env : Env) (fuel : Nat) (packagePath : String)
    (names : List String) : Except Err (List GoType) :=
  match fuel with
  | 0 => .error .outOfFuel
  | n + 1 =>
      (env.getPackageSourceFiles packagePath).bind
        (fun goSources =>
          (scanFiles env n packagePath goSources (dedupFirst names) []).bind
            (fun st =>
              match st.2 with
              | name :: _ => .error (.declarationNotFound name)
              | [] => .ok (names.map (fun nm => (resultLookup st.1 nm).getD zeroGoType))))
termination_by (fuel, 0)

/-- The `for _, source := range goSources` loop of
`generateTypesInSinglePackage`: stop early once the working set is empty;
otherwise parse the file, build its import table and hand the working set
to the per-file name scan. -/
def scanFiles (env : Env) (fuel : Nat) (packagePath : String) (files : List String)
    (remaining : List String) (rm : List (String × GoType)) :
    Except Err (List (String × GoType) × List String) :=
  match files with
  | [] => .ok (rm, remaining)
  | source :: rest =>
      match remaining with
      | [] => .ok (rm, [])
      | _ :: _ =>
          match fuel with
          | 0 => .error .outOfFuel
          | n + 1 =>
              (env.parseAstFile source).bind
                (fun fileAst =>
                  (scanNamesInFile env n packagePath (generateImportMap packagePath fileAst)
                      fileAst remaining rm).bind
                    (fun st => scanFiles env (n + 1) packagePath rest st.2 st.1))
termination_by (fuel, files.length)

/-- The `for name := range remainingNames` loop of
`generateTypesInSinglePackage` over one parsed file: each still-wanted
name that the file declares is lowered and moved from the working set
into `resultMap`.  (Go iterates the set in unspecified order; the model
fixes first-occurrence request order.) -/
def scanNamesInFile (env : Env) (fuel : Nat) (packagePath : String)
    (importMap : ImportMap) (fileAst : GoFile) (remaining : List String)
    (rm : List (String × GoType)) :
    Except Err (List (String × GoType) × List String) :=
  match remaining with
  | [] => .ok (rm, [])
  | name :: rest =>
      match getDeclarationByName fileAst name with
      | none =>
          (scanNamesInFile env fuel packagePath importMap fileAst rest rm).map
            (fun st => (st.1, name :: st.2))
      | some tyExpr =>
          match fuel with
          | 0 => .error .outOfFuel
          | n + 1 =>
              (generateTypeFromExpr env n tyExpr packagePath importMap).bind
                (fun t =>
                  scanNamesInFile env (n + 1) packagePath importMap fileAst rest
                    ((name, t) :: rm))
termination_by (fuel, remaining.length)

/-- Go `generateTypeFromExpr`: dispatch over the expression shape; any
shape outside the closed set is "unrecognized type". -/
def generateTypeFromExpr (env : Env) (fuel : Nat) (e : Expr)
    (targetPkgPath : String) (importMap : ImportMap) : Except Err GoType :=
  match fuel with
  | 0 => .error .outOfFuel
  | n + 1 =>
      match e with
      | .selectorExpr x sel => generateTypeFromSelectorExpr x sel importMap
      | .ident name => .ok (generateTypeFromIdent name targetPkgPath importMap)
      | .starExpr x =>
          (generateTypeFromStarExpr env n x targetPkgPath importMap).map GoType.ofPtr
      | .arrayType len elt => generateTypeFromArrayType env n len elt targetPkgPath importMap
      | .funcType params results =>
          (generateTypeFromFuncType env n params results targetPkgPath importMap).map
            GoType.ofFunc
      | .mapType key value =>
          (generateTypeFromMapType env n key value targetPkgPath importMap).map GoType.ofMap
      | .chanType dir value =>
          (generateTypeFromChanType env n dir value targetPkgPath importMap).map GoType.ofChan
      | .structType fields =>
          (generateTypeFromStructType env n fields targetPkgPath importMap).map GoType.ofStruct
      | .interfaceType methods =>
          (generateTypeFromInterfaceType env n methods targetPkgPath importMap).map
            GoType.ofInterface
      | _ => .error .unrecognizedType
termination_by (fuel, 0)

/-- Go `generateTypeFromStarExpr`: lower the pointee. -/
def generateTypeFromStarExpr (env : Env) (fuel : Nat) (x : Expr)
    (packagePath : String) (importMap : ImportMap) : Except Err PtrType :=
  match fuel with
  | 0 => .error .outOfFuel
  | n + 1 =>
      (generateTypeFromExpr env n x packagePath importMap).map PtrType.mk
termination_by (fuel, 0)

/-- Go `generateTypeFromArrayType`: no length means a slice; a present
length must be a `BasicLit` whose token `parseInt` accepts, otherwise
"unrecognized array length". -/
def generateTypeFromArrayType (env : Env) (fuel : Nat) (len : Option Expr)
    (elt : Expr) (packagePath : String) (importMap : ImportMap) : Except Err GoType :=
  match fuel with
  | 0 => .error .outOfFuel
  | n + 1 =>
      match len with
      | none =>
          (generateTypeFromExpr env n elt packagePath importMap).map
            (fun t => .ofSlice (.mk t))
      | some lenExpr =>
          match lenExpr with
          | .basicLit v =>
              match parseInt v with
              | none => .error .unrecognizedArrayLength
              | some lenn =>
                  (generateTypeFromExpr env n elt packagePath importMap).map
                    (fun t => .ofArray (.mk lenn t))
          | _ => .error .unrecognizedArrayLength
termination_by (fuel, 0)

/-- Go `generateTypeFromFuncType`: lower the parameter list (whose
variadic flag is kept) and, when present, the result list (whose flag is
discarded), with names synthesized by `getInputNamesFromAst` /
`getOutputNamesFromAst`. -/
def generateTypeFromFuncType (env : Env) (fuel : Nat) (params : List Field)
    (results : Option (List Field)) (packagePath : String) (importMap : ImportMap) :
    Except Err FuncType :=
  match fuel with
  | 0 => .error .outOfFuel
  | n + 1 =>
      (generateTypeFromFieldList env n (some params) (getInputNamesFromAst params)
          packagePath importMap).bind
        (fun ps =>
          match results with
          | none => .ok (.mk ps.1 [] ps.2)
          | some rs =>
              (generateTypeFromFieldList env n (some rs) (getOutputNamesFromAst rs)
                  packagePath importMap).map
                (fun os => .mk ps.1 os.1 ps.2))
termination_by (fuel, 0)

/-- Go `generateTypeFromFieldList`: a nil field list yields no fields;
otherwise run the loop. -/
def generateTypeFromFieldList (env : Env) (fuel : Nat) (fields : Option (List Field))
    (names : List String) (packagePath : String) (importMap : ImportMap) :
    Except Err (List TypeField × Bool) :=
  match fields with
  | none => .ok ([], false)
  | some fs => fieldListLoop env fuel fs names 0 packagePath importMap
termination_by (fuel, (fields.map List.length).getD 0 + 1)

/-- The `for _, field := range fields.List` loop of
`generateTypeFromFieldList`: an `Ellipsis` type marks the list variadic
and is unwrapped before lowering; a group with no names emits one field
named `names[i]`; a group with names emits one field per name, all
reading successive `names[i]` entries. -/
def fieldListLoop (env : Env) (fuel : Nat) (fields : List Field) (names : List String)
    (i : Nat) (packagePath : String) (importMap : ImportMap) :
    Except Err (List TypeField × Bool) :=
  match fields with
  | [] => .ok ([], false)
  | .mk fnames ftype :: rest =>
      match fuel with
      | 0 => .error .outOfFuel
      | n + 1 =>
          (generateTypeFromExpr env n (unwrapEllipsis ftype).2 packagePath importMap).bind
            (fun t =>
              match fnames with
              | [] =>
                  match names[i]? with
                  | none => .error (.runtimePanic "index out of range")
                  | some nm =>
                      (fieldListLoop env (n + 1) rest names (i + 1) packagePath importMap).map
                        (fun acc => (TypeField.mk nm t :: acc.1, (unwrapEllipsis ftype).1 || acc.2))
              | _ :: _ =>
                  (namedFieldsFromNames names i fnames.length t).bind
                    (fun hfs =>
                      (fieldListLoop env (n + 1) rest names (i + fnames.length)
                          packagePath importMap).map
                        (fun acc => (hfs ++ acc.1, (unwrapEllipsis ftype).1 || acc.2))))
termination_by (fuel, fields.length)

/-- Go `generateTypeFromMapType`: lower key then value. -/
def generateTypeFromMapType (env : Env) (fuel : Nat) (key : Expr) (value : Expr)
    (packagePath : String) (importMap : ImportMap) : Except Err MapType :=
  match fuel with
  | 0 => .error .outOfFuel
  | n + 1 =>
      (generateTypeFromExpr env n key packagePath importMap).bind
        (fun keyDef =>
          (generateTypeFromExpr env n value packagePath importMap).map
            (fun valDef => .mk keyDef valDef))
termination_by (fuel, 0)

/-- Go `generateTypeFromChanType`: lower the element; `RECV` maps to
receive-only, `SEND` to send-only, anything else to bidirectional. -/
def generateTypeFromChanType (env : Env) (fuel : Nat) (dir : AstChanDir) (value : Expr)
    (packagePath : String) (importMap : ImportMap) : Except Err ChanType :=
  match fuel with
  | 0 => .error .outOfFuel
  | n + 1 =>
      (generateTypeFromExpr env n value packagePath importMap).map
        (fun c =>
          match dir with
          | .recv => .mk .recv c
          | .send => .mk .send c
          | .sendRecv => .mk .both c)
termination_by (fuel, 0)

/-- Go `generateTypeFromStructType`: a nil field list yields a struct
with nil fields; otherwise run the field loop. -/
def generateTypeFromStructType (env : Env) (fuel : Nat) (fields : Option (List Field))
    (packagePath : String) (importMap : ImportMap) : Except Err StructType :=
  match fields with
  | none => .ok (.mk [])
  | some fs =>
      match fuel with
      | 0 => .error .outOfFuel
      | n + 1 => (structFieldsLoop env n fs packagePath importMap).map StructType.mk
termination_by (fuel, (fields.map List.length).getD 0 + 1)

/-- The outer `for _, field := range structType.Fields.List` loop of
`generateTypeFromStructType`: each group contributes one field per
declared name (lowering the shared type expression once per name); a
group with no names contributes nothing and its type expression is never
lowered. -/
def structFieldsLoop (env : Env) (fuel : Nat) (fields : List Field)
    (packagePath : String) (importMap : ImportMap) : Except Err (List TypeField) :=
  match fields with
  | [] => .ok []
  | .mk ns te :: rest =>
      match fuel with
      | 0 => .error .outOfFuel
      | n + 1 =>
          (structNamesLoop env n ns te packagePath importMap).bind
            (fun hfs =>
              (structFieldsLoop env (n + 1) rest packagePath importMap).map
                (fun tfs => hfs ++ tfs))
termination_by (fuel, fields.length)

/-- The inner `for _, name := range field.Names` loop of
`generateTypeFromStructType`. -/
def structNamesLoop (env : Env) (fuel : Nat) (ns : List String) (te : Expr)
    (packagePath : String) (importMap : ImportMap) : Except Err (List TypeField) :=
  match ns with
  | [] => .ok []
  | nm :: more =>
      match fuel with
      | 0 => .error .outOfFuel
      | n + 1 =>
          (generateTypeFromExpr env n te packagePath importMap).bind
            (fun t =>
              (structNamesLoop env (n + 1) more te packagePath importMap).map
                (fun tfs => TypeField.mk nm t :: tfs))
termination_by (fuel, ns.length)

/-- Go `generateTypeFromInterfaceType`: a nil member list yields an
interface with nil methods; otherwise run the member loop. -/
def generateTypeFromInterfaceType (env : Env) (fuel : Nat)
    (methods : Option (List Field)) (packagePath : String) (importMap : ImportMap) :
    Except Err InterfaceType :=
  match methods with
  | none => .ok (.mk [])
  | some fs =>
      match fuel with
      | 0 => .error .outOfFuel
      | n + 1 => (lowerIfaceFields env n fs packagePath importMap).map InterfaceType.mk
termination_by (fuel, (methods.map List.length).getD 0 + 1)

/-- The `for _, field := range interfaceType.Methods.List` loop of
`generateTypeFromInterfaceType`: the method list is the concatenation of
the contribution of each member, in member order. -/
def lowerIfaceFields (env : Env) (fuel : Nat) (fields : List Field)
    (packagePath : String) (importMap : ImportMap) :
    Except Err (List InterfaceTypeMethod) :=
  match fields with
  | [] => .ok []
  | fld :: rest =>
      match fuel with
      | 0 => .error .outOfFuel
      | n + 1 =>
          (ifaceMemberMethods env n fld packagePath importMap).bind
            (fun hm =>
              (lowerIfaceFields env (n + 1) rest packagePath importMap).map
                (fun ms => hm ++ ms))
termination_by (fuel, fields.length)

/-- The contribution of one interface member, the `switch t := field.Type.(type)`
of `generateTypeFromInterfaceType`:

* a `FuncType` member is one method named `field.Names[0]` (reading
  `Names[0]` of a nameless member is a Go runtime panic);
* a bare identifier member re-enters `GenerateTypesFromSpecs` for
  `(packagePath, name)` and splices `result[0].InterfaceType.Methods`
  in place — with no check that the result is an interface, so a
  non-interface embed target is a nil-pointer dereference (runtime
  panic), and `result[0]` on an empty result likewise;
* a selector member does the same for `(importMap[x], sel)`, where the
  left side `t.X` is type-asserted to an identifier without the comma-ok
  form (runtime panic otherwise) and `importMap[x]` is a bare map read
  (missing alias yields `""`);
* any other member shape is silently skipped. -/
def ifaceMemberMethods (env : Env) (fuel : Nat) (fld : Field)
    (packagePath : String) (importMap : ImportMap) :
    Except Err (List InterfaceTypeMethod) :=
  match fuel with
  | 0 => .error .outOfFuel
  | n + 1 =>
      match fld with
      | .mk fnames ftype =>
          match ftype with
          | .funcType params results =>
              match fnames with
              | [] => .error (.runtimePanic "index out of range")
              | name :: _ =>
                  (generateTypeFromFuncType env n params results packagePath importMap).map
                    (fun funcTyp => [InterfaceTypeMethod.mk name funcTyp])
          | .ident tname =>
              (generateTypesFromSpecs env n [TypeSpec.mk packagePath tname]).bind
                (fun innerInterface =>
                  match innerInterface[0]? with
                  | none => .error (.runtimePanic "index out of range")
                  | some t0 =>
                      match t0.interfaceType with
                      | none => .error (.runtimePanic "nil pointer dereference")
                      | some itf => .ok itf.methods)
          | .selectorExpr sx sel =>
              match sx with
              | .ident x =>
                  (generateTypesFromSpecs env n [TypeSpec.mk (mapGet importMap x) sel]).bind
                    (fun innerInterface =>
                      match innerInterface[0]? with
                      | none => .error (.runtimePanic "index out of range")
                      | some t0 =>
                          match t0.interfaceType with
                          | none => .error (.runtimePanic "nil pointer dereference")
                          | some itf => .ok itf.methods)
              | _ => .error (.runtimePanic "interface conversion")
          | _ => .ok []
termination_by (fuel, 0)
end

/-- The spec synthesized-name rule, written from its words (§4.4a): "a
counter starting at 1 that increments only for unnamed entries"; an entry
with explicit names contributes those names and leaves the counter
untouched, an entry with no names contributes the single name
`pre + counter`.  Stated for comparison with the source function
`getNamesFromExpr`. -/
def specSynthNames : List Field → String → Nat → List String
  | [], _, _ => []
  | f :: rest, pre, counter =>
      match f.names with
      | [] => (pre ++ toString counter) :: specSynthNames rest pre (counter + 1)
      | ns => ns ++ specSynthNames rest pre counter

/-- Number of named fields a field list emits: one per name for a named
group, one for a nameless group. -/
def emitCount : List Field → Nat
  | [] => 0
  | f :: rest => (if f.names.isEmpty then 1 else f.names.length) + emitCount rest

/-- An environment in which every external call fails: no package can be
located and no file parses. -/
def env0 : Env :=
  ⟨fun _ => .error (.sourceFinder "no such package"),
   fun _ => .error (.openOrParse "no such file")⟩

/-- A file of package `p` declaring `type B interface \x7b A \x7d` and
`type A int`: interface `B` embeds the name `A`, which resolves to a
non-interface. -/
def filePanic : GoFile :=
  ⟨"p", [.genDecl [.typeSpec "B" (.interfaceType (some [.mk [] (.ident "A")]))],
         .genDecl [.typeSpec "A" (.ident "int")]]⟩

/-- Environment serving `filePanic` as the sole file of package "p". -/
def envPanic : Env :=
  ⟨fun pp => if pp = "p" then .ok ["p.go"] else .error (.sourceFinder pp),
   fun fn => if fn = "p.go" then .ok filePanic else .error (.openOrParse fn)⟩

/-- File 1 of package `q`: `type B interface \x7b M(); A \x7d`. -/
def fileEmbedB : GoFile :=
  ⟨"q", [.genDecl [.typeSpec "B"
          (.interfaceType (some [.mk ["M"] (.funcType [] none), .mk [] (.ident "A")]))]]⟩

/-- File 2 of package `q`: `type A interface \x7b N() \x7d`, in a
different file of the same package. -/
def fileEmbedA : GoFile :=
  ⟨"q", [.genDecl [.typeSpec "A" (.interfaceType (some [.mk ["N"] (.funcType [] none)]))]]⟩

/-- Environment serving the two-file package "q". -/
def envEmbed : Env :=
  ⟨fun pp => if pp = "q" then .ok ["a.go", "b.go"] else .error (.sourceFinder pp),
   fun fn =>
     if fn = "a.go" then .ok fileEmbedB
     else if fn = "b.go" then .ok fileEmbedA
     else .error (.openOrParse fn)⟩

/-- A file of package `p` declaring `type A int` and `type B string`. -/
def fileAB : GoFile :=
  ⟨"p", [.genDecl [.typeSpec "A" (.ident "int")],
         .genDecl [.typeSpec "B" (.ident "string")]]⟩

/-- Environment serving `fileAB` as the sole file of package "p". -/
def envAB : Env :=
  ⟨fun pp => if pp = "p" then .ok ["p.go"] else .error (.sourceFinder pp),
   fun fn => if fn = "p.go" then .ok fileAB else .error (.openOrParse fn)⟩

/-- The parameter list `(a int, int, b string)` of §8 property 2. -/
def paramsAIntIntB : List Field :=
  [.mk ["a"] (.ident "int"), .mk [] (.ident "int"), .mk ["b"] (.ident "string")]

/-- A file whose only declaration imports `"github.com/x/y.v2"` without
an explicit alias. -/
def fileWithImport : GoFile :=
  ⟨"mypkg", [.genDecl [.importSpec "\"github.com/x/y.v2\"" none]]⟩

/-- A file whose declared package name contains `"_test"` strictly in the
middle (not as a suffix). -/
def fileTester : GoFile :=
  ⟨"my_tester", []⟩

/-- The well-formedness invariant, stated for every function of the
engine at one fuel level: every canonical type a function returns (or
stores) on success is well-formed, resolution coverage is preserved (a
scanned name ends up either still wanted or bound in the result map, and
every requested name of a group is bound by the pairs of the group), and a
package resolution returns one result per requested name. -/
structure WfBundle (env : Env) (fuel : Nat) : Prop where
  gtfs : ∀ specs res, generateTypesFromSpecs env fuel specs = .ok res →
    ∀ t ∈ res, t.wf = true
  groups : ∀ gs pairs, resolveGroups env fuel gs = .ok pairs →
    (∀ pr ∈ pairs, (pr : TypeSpec × GoType).2.wf = true) ∧
    (∀ g ∈ gs, ∀ nm ∈ (g : String × List String).2, ∃ pr ∈ pairs, (pr : TypeSpec × GoType).1 = TypeSpec.mk g.1 nm)
  single : ∀ pkg names res, generateTypesInSinglePackage env fuel pkg names = .ok res →
    (∀ t ∈ res, t.wf = true) ∧ res.length = names.length
  sfiles : ∀ pkg files remaining rm st, (∀ pr ∈ rm, (pr : String × GoType).2.wf = true) →
    scanFiles env fuel pkg files remaining rm = .ok st →
    (∀ pr ∈ st.1, (pr : String × GoType).2.wf = true) ∧
    (∀ nm ∈ remaining, nm ∈ st.2 ∨ ∃ pr ∈ st.1, (pr : String × GoType).1 = nm) ∧
    (∀ pr ∈ rm, pr ∈ st.1)
  snames : ∀ pkg im fileAst remaining rm st, (∀ pr ∈ rm, (pr : String × GoType).2.wf = true) →
    scanNamesInFile env fuel pkg im fileAst remaining rm = .ok st →
    (∀ pr ∈ st.1, (pr : String × GoType).2.wf = true) ∧
    (∀ nm ∈ remaining, nm ∈ st.2 ∨ ∃ pr ∈ st.1, (pr : String × GoType).1 = nm) ∧
    (∀ pr ∈ rm, pr ∈ st.1)
  expr : ∀ e pkg im t, generateTypeFromExpr env fuel e pkg im = .ok t → t.wf = true
  star : ∀ x pkg im pt, generateTypeFromStarExpr env fuel x pkg im = .ok pt →
    wfOptPtr (some pt) = true
  arr : ∀ len elt pkg im t, generateTypeFromArrayType env fuel len elt pkg im = .ok t →
    t.wf = true
  func : ∀ params results pkg im ft,
    generateTypeFromFuncType env fuel params results pkg im = .ok ft → ft.wf = true
  flist : ∀ fields names pkg im st,
    generateTypeFromFieldList env fuel fields names pkg im = .ok st → wfFields st.1 = true
  floop : ∀ fields names i pkg im st,
    fieldListLoop env fuel fields names i pkg im = .ok st → wfFields st.1 = true
  mapt : ∀ k v pkg im mt, generateTypeFromMapType env fuel k v pkg im = .ok mt →
    wfOptMap (some mt) = true
  chant : ∀ d v pkg im ct, generateTypeFromChanType env fuel d v pkg im = .ok ct →
    wfOptChan (some ct) = true
  structt : ∀ fields pkg im st, generateTypeFromStructType env fuel fields pkg im = .ok st →
    wfFields st.fields = true
  sfloop : ∀ fields pkg im tfs, structFieldsLoop env fuel fields pkg im = .ok tfs →
    wfFields tfs = true
  snloop : ∀ ns te pkg im tfs, structNamesLoop env fuel ns te pkg im = .ok tfs →
    wfFields tfs = true
  ifacet : ∀ methods pkg im it, generateTypeFromInterfaceType env fuel methods pkg im = .ok it →
    wfMethods it.methods = true
  ifloop : ∀ fields pkg im ms, lowerIfaceFields env fuel fields pkg im = .ok ms →
    wfMethods ms = true
  ifmem : ∀ fld pkg im ms, ifaceMemberMethods env fuel fld pkg im = .ok ms →
    wfMethods ms = true



/-- Claim C2, amended: `generateTypeFromIdent` matches the bare identifier
against the fixed primitive-kind name list and the literal "error" by
exact, case-sensitive string equality; not case-insensitively as the
claim states.  Every exactly-matching identifier yields the corresponding
`Primitive` variant; every other identifier yields
`Qualified(target package, the Import Table self-alias entry, text)`.
The function returns a plain `GoType`, so this path never fails. -/
theorem claim_C2 :
    (∀ (k : PrimitiveKind) (pkg : String) (im : ImportMap),
        generateTypeFromIdent k.goName pkg im = .ofPrim k)
    ∧ (∀ (name pkg : String) (im : ImportMap), name ∉ goPrimNames →
        generateTypeFromIdent name pkg im =
          .ofQual (.mk pkg (mapGet im (pkg ++ "__short")) name)) := by
  constructor
  · intro k pkg im
    cases k <;> rfl
  · intro name pkg im h
    simp [goPrimNames] at h
    obtain ⟨h1, h2, h3, h4, h5, h6, h7, h8, h9, h10, h11, h12, h13, h14, h15, h16, h17, h18,
      h19, h20⟩ := h
    unfold generateTypeFromIdent
    split <;> simp_all

/-- Claim C2 counterexample: "Bool" equals "bool" up to character case,
and "bool" is in the primitive-kind name list, so a case-insensitive
match would have to yield the boolean `Primitive`; the code instead takes
the `Qualified` fallback, whose primitive payload is absent. -/
theorem claim_C2_counterexample :
    "Bool".toList.map Char.toLower = "bool".toList
    ∧ "bool" ∈ goPrimNames
    ∧ generateTypeFromIdent "Bool" "p" [] = .ofQual (.mk "p" "" "Bool")
    ∧ (generateTypeFromIdent "Bool" "p" []).primitiveType = none :=
  ⟨by decide, by decide, rfl, rfl⟩

/-- Claim C2 witness: "int" lowers to the int primitive, and the unknown
identifier "MyType" lowers to the self-qualified reference stamped with
the import table self-alias entry. -/
theorem claim_C2_witness :
    generateTypeFromIdent "int" "p" [] = .ofPrim .int
    ∧ "MyType" ∉ goPrimNames
    ∧ generateTypeFromIdent "MyType" "p" [("p__short", "mypkg")] =
        .ofQual (.mk "p" "mypkg" "MyType") := by
  refine ⟨claim_C2.1 .int "p" [], by decide, ?_⟩
  have h := claim_C2.2 "MyType" "p" [("p__short", "mypkg")] (by decide)
  have h2 : mapGet [("p__short", "mypkg")] ("p" ++ "__short") = "mypkg" := by decide
  rw [h, h2]

/-- Claim C6: lowering an array/slice type expression with no length
recursively lowers the element and yields `Slice`; with a length that is
a `BasicLit` accepted by `parseInt` it yields `Array(length, elem)`; a
`BasicLit` rejected by `parseInt`, or any non-literal length expression,
fails with the unrecognized-array-length error; and `[3]int` lowers to
`Array(3, Primitive int)`. -/
theorem claim_C6 :
    (∀ (env : Env) (n : Nat) (elt : Expr) (pkg : String) (im : ImportMap) (t : GoType),
        generateTypeFromExpr env n elt pkg im = .ok t →
        generateTypeFromArrayType env (n + 1) none elt pkg im = .ok (.ofSlice (.mk t)))
    ∧ (∀ (env : Env) (n : Nat) (v : String) (lenn : Nat) (elt : Expr) (pkg : String)
          (im : ImportMap) (t : GoType),
        parseInt v = some lenn →
        generateTypeFromExpr env n elt pkg im = .ok t →
        generateTypeFromArrayType env (n + 1) (some (.basicLit v)) elt pkg im =
          .ok (.ofArray (.mk lenn t)))
    ∧ (∀ (env : Env) (n : Nat) (v : String) (elt : Expr) (pkg : String) (im : ImportMap),
        parseInt v = none →
        generateTypeFromArrayType env (n + 1) (some (.basicLit v)) elt pkg im =
          .error .unrecognizedArrayLength)
    ∧ (∀ (env : Env) (n : Nat) (lenExpr elt : Expr) (pkg : String) (im : ImportMap),
        (∀ v, lenExpr ≠ .basicLit v) →
        generateTypeFromArrayType env (n + 1) (some lenExpr) elt pkg im =
          .error .unrecognizedArrayLength)
    ∧ generateTypeFromExpr env0 3 (.arrayType (some (.basicLit "3")) (.ident "int")) "p" []
        = .ok (.ofArray (.mk 3 (.ofPrim .int))) := by
  refine ⟨?_, ?_, ?_, ?_, ?_⟩
  · intro env n elt pkg im t h
    simp [generateTypeFromArrayType, h, Except.map]
  · intro env n v lenn elt pkg im t hp h
    simp [generateTypeFromArrayType, hp, h, Except.map]
  · intro env n v elt pkg im hp
    simp [generateTypeFromArrayType, hp]
  · intro env n lenExpr elt pkg im hne
    cases lenExpr <;> simp_all [generateTypeFromArrayType]
  · simp [generateTypeFromExpr, generateTypeFromArrayType, generateTypeFromIdent,
      show parseInt "3" = some 3 by decide, Except.map]

/-- Claim C6 witness: `[3]int` lowers to `Array(3, Primitive int)`, and a
non-literal length expression fails with the unrecognized-array-length
error. -/
theorem claim_C6_witness :
    generateTypeFromArrayType env0 2 (some (.basicLit "3")) (.ident "int") "p" []
      = .ok (.ofArray (.mk 3 (.ofPrim .int)))
    ∧ generateTypeFromArrayType env0 2 (some (.ident "n")) (.ident "int") "p" []
      = .error .unrecognizedArrayLength := by
  constructor
  · exact claim_C6.2.1 env0 1 "3" 3 (.ident "int") "p" [] (.ofPrim .int) (by decide)
      (by simp [generateTypeFromExpr, generateTypeFromIdent])
  · exact claim_C6.2.2.2.1 env0 1 (.ident "n") (.ident "int") "p" [] (fun v => by simp)

/-- Claim C7, amended: `generateImportMap` adds the synthetic
self-reference entry, keyed by the package identifier plus `__short` and
mapping to the declared package name of the file, if and only if that
package name does not contain the substring `_test` anywhere (the code
tests `strings.Contains`, not a suffix); the builder is a total function
and never fails.  Stated under the hypothesis that no explicit or default
alias of the imports collides with the synthetic key. -/
theorem claim_C7 (pkg : String) (file : GoFile)
    (h : mapLookup (importEntries file.decls) (pkg ++ "__short") = none) :
    mapLookup (generateImportMap pkg file) (pkg ++ "__short") =
      (if goContains file.name "_test" then none else some file.name) := by
  unfold generateImportMap
  split
  · exact h
  · simp [mapLookup]

/-- Claim C7 witness: a file of package `mypkg` with one unaliased import
of "github.com/x/y.v2" gets the self-reference entry and the default
alias `y` (base name stripped at the first dot). -/
theorem claim_C7_witness :
    mapLookup (importEntries fileWithImport.decls) ("p" ++ "__short") = none
    ∧ goContains fileWithImport.name "_test" = false
    ∧ mapLookup (generateImportMap "p" fileWithImport) ("p" ++ "__short") = some "mypkg"
    ∧ mapLookup (generateImportMap "p" fileWithImport) "y" = some "github.com/x/y.v2" := by
  refine ⟨by decide, by decide, ?_, by decide⟩
  have h := claim_C7 "p" fileWithImport (by decide)
  rw [h, show goContains fileWithImport.name "_test" = false by decide]
  rfl

/-- Claim C7 counterexample: the declared package name "my_tester" does
not carry "_test" as a suffix, yet the self-reference entry is omitted,
because the code tests substring containment rather than a suffix
marker. -/
theorem claim_C7_counterexample :
    goHasSuffix "my_tester" "_test" = false
    ∧ mapLookup (generateImportMap "p" fileTester) ("p" ++ "__short") = none := by
  exact ⟨by decide, by decide⟩

/-- A struct field group with no declared names contributes nothing to
the field loop, and its type expression is never lowered. -/
theorem structFieldsLoop_drop_nameless (env : Env) (n : Nat) (fs1 fs2 : List Field)
    (e : Expr) (pkg : String) (im : ImportMap) :
    structFieldsLoop env (n + 1) (fs1 ++ .mk [] e :: fs2) pkg im =
      structFieldsLoop env (n + 1) (fs1 ++ fs2) pkg im := by
  induction fs1 with
  | nil =>
    simp only [List.nil_append]
    rw [structFieldsLoop]
    simp only [structNamesLoop, Except.bind]
    cases h : structFieldsLoop env (n + 1) fs2 pkg im <;> simp [Except.map]
  | cons f fs1 ih =>
    cases f with
    | mk ns te =>
      simp only [List.cons_append]
      rw [structFieldsLoop, structFieldsLoop]
      simp only [ih]

/-- Claim C9: a struct field-list entry that declares zero names
contributes no named field and its type expression is never lowered;
the struct lowering of a list with such an entry equals the lowering of
the list without it, for every (even malformed) type expression; in
particular a struct whose only entry is a nameless malformed expression
lowers successfully to the empty struct. -/
theorem claim_C9 :
    (∀ (env : Env) (n : Nat) (fs1 fs2 : List Field) (e : Expr) (pkg : String) (im : ImportMap),
        generateTypeFromStructType env (n + 2) (some (fs1 ++ .mk [] e :: fs2)) pkg im =
          generateTypeFromStructType env (n + 2) (some (fs1 ++ fs2)) pkg im)
    ∧ generateTypeFromStructType env0 2 (some [.mk [] (.unknownExpr "malformed")]) "p" []
        = .ok (.mk []) := by
  constructor
  · intro env n fs1 fs2 e pkg im
    rw [generateTypeFromStructType, generateTypeFromStructType,
      structFieldsLoop_drop_nameless]
  · simp [generateTypeFromStructType, structFieldsLoop, structNamesLoop, Except.bind,
      Except.map]

/-- Claim C10: outside an interface body, a package-qualified type
expression whose alias is missing from the Import Table fails with the
unresolved-alias ("unrecognized identifier") error; but an interface
member of the same shape reads the alias with a bare map read, so the
missing alias resolves to the empty-string package identifier, which is
passed to the re-entrant batch-resolution call; any error of that call
(source-locator or declaration-not-found for the empty package) surfaces
unchanged, and no unresolved-alias error is produced. -/
theorem claim_C10 :
    (∀ (im : ImportMap) (x sel : String), mapLookup im x = none →
        generateTypeFromSelectorExpr (.ident x) sel im = .error (.unrecognizedIdentifier x))
    ∧ (∀ (env : Env) (m : Nat) (ns : List String) (x sel pkg : String) (im : ImportMap)
          (er : Err),
        mapLookup im x = none →
        generateTypesFromSpecs env m [.mk "" sel] = .error er →
        ifaceMemberMethods env (m + 1) (.mk ns (.selectorExpr (.ident x) sel)) pkg im =
          .error er) := by
  constructor
  · intro im x sel h
    simp [generateTypeFromSelectorExpr, h]
  · intro env m ns x sel pkg im er h1 h2
    have hg : mapGet im x = "" := by simp [mapGet, h1]
    simp [ifaceMemberMethods, hg, h2, Except.bind]

/-- Claim C10 witness: the interface member `ext.T` with `ext` absent
from the import table surfaces the locator error for package "", not an
unrecognized-identifier error. -/
theorem claim_C10_witness :
    mapLookup [] "ext" = none
    ∧ generateTypesFromSpecs env0 5 [.mk "" "T"] = .error (.sourceFinder "no such package")
    ∧ ifaceMemberMethods env0 6 (.mk [] (.selectorExpr (.ident "ext") "T")) "p" [] =
        .error (.sourceFinder "no such package") := by
  have hg : generateTypesFromSpecs env0 5 [.mk "" "T"] =
      .error (.sourceFinder "no such package") := by
    simp [generateTypesFromSpecs, resolveGroups, generateTypesInSinglePackage,
      groupTypeSpecByPackage, env0, Except.bind, Except.map, dedupFirst]
  exact ⟨rfl, hg, claim_C10.2 env0 5 [] "ext" "T" "p" [] _ rfl hg⟩

/-- The synthesized name list has exactly one name per emitted field. -/
theorem length_getNamesFromExprAux (params : List Field) :
    ∀ (pre : String) (i : Nat),
    (getNamesFromExprAux params pre i).length = emitCount params := by
  induction params with
  | nil => intro pre i; rfl
  | cons f rest ih =>
    intro pre i
    cases f with
    | mk ns te =>
      cases ns with
      | nil => simp [getNamesFromExprAux, emitCount, Field.names, ih]; omega
      | cons a as => simp [getNamesFromExprAux, emitCount, Field.names, ih]; omega

/-- The named-group inner loop emits fields named by the consecutive
`names` entries starting at index `i`. -/
theorem namedFieldsFromNames_map_name (k : Nat) :
    ∀ (i : Nat) (names : List String) (t : GoType) (hfs : List TypeField),
    namedFieldsFromNames names i k t = .ok hfs →
    hfs.map TypeField.name = (names.drop i).take k := by
  induction k with
  | zero =>
    intro i names t hfs h
    simp [namedFieldsFromNames] at h
    simp [← h]
  | succ k ih =>
    intro i names t hfs h
    rw [namedFieldsFromNames] at h
    cases hni : names[i]? with
    | none => simp [hni] at h
    | some nm =>
      rw [hni] at h
      cases hrec : namedFieldsFromNames names (i + 1) k t with
      | error e => simp [hrec, Except.map] at h
      | ok tfs =>
        rw [hrec] at h
        simp [Except.map] at h
        obtain ⟨hlt, hget⟩ := List.getElem?_eq_some.mp hni
        rw [← h, List.map_cons, ih (i + 1) names t tfs hrec,
          List.drop_eq_getElem_cons hlt, hget, List.take_succ_cons, TypeField.name]

/-- A successful field-list loop emits fields named by the consecutive
`names` entries starting at index `i`, one per emitted field. -/
theorem fieldListLoop_map_name (fields : List Field) :
    ∀ (env : Env) (fuel : Nat) (names : List String) (i : Nat) (pkg : String)
      (im : ImportMap) (st : List TypeField × Bool),
    fieldListLoop env fuel fields names i pkg im = .ok st →
    st.1.map TypeField.name = (names.drop i).take (emitCount fields) := by
  induction fields with
  | nil =>
    intro env fuel names i pkg im st h
    simp [fieldListLoop] at h
    simp [← h, emitCount]
  | cons f rest ih =>
    intro env fuel names i pkg im st h
    cases f with
    | mk fnames ftype =>
      cases fuel with
      | zero => simp [fieldListLoop] at h
      | succ n =>
        rw [fieldListLoop] at h
        cases hT : generateTypeFromExpr env n (unwrapEllipsis ftype).2 pkg im with
        | error e => rw [hT] at h; simp [Except.bind] at h
        | ok t =>
          rw [hT] at h
          simp only [Except.bind] at h
          cases fnames with
          | nil =>
            cases hni : names[i]? with
            | none => rw [hni] at h; simp at h
            | some nm =>
              rw [hni] at h
              cases hrec : fieldListLoop env (n + 1) rest names (i + 1) pkg im with
              | error e => rw [hrec] at h; simp [Except.map] at h
              | ok acc =>
                rw [hrec] at h
                simp [Except.map] at h
                obtain ⟨hlt, hget⟩ := List.getElem?_eq_some.mp hni
                subst h
                rw [List.map_cons, ih env (n + 1) names (i + 1) pkg im acc hrec,
                  List.drop_eq_getElem_cons hlt, hget]
                simp only [emitCount, Field.names, List.isEmpty_nil, if_pos, TypeField.name]
                rw [Nat.add_comm 1 (emitCount rest), List.take_succ_cons]
          | cons a as =>
            cases hnf : namedFieldsFromNames names i (a :: as).length t with
            | error e => rw [hnf] at h; simp at h
            | ok hfs =>
              rw [hnf] at h
              simp only [Except.bind] at h
              cases hrec : fieldListLoop env (n + 1) rest names (i + (a :: as).length)
                  pkg im with
              | error e => rw [hrec] at h; simp [Except.map] at h
              | ok acc =>
                rw [hrec] at h
                simp [Except.map] at h
                subst h
                rw [List.map_append,
                  namedFieldsFromNames_map_name (a :: as).length i names t hfs hnf,
                  ih env (n + 1) names (i + (a :: as).length) pkg im acc hrec]
                simp only [emitCount, Field.names, List.isEmpty_cons]
                rw [if_neg (by simp), List.take_add, List.drop_drop]

/-- The source name-synthesis loop refines the spec rule: its internal
counter `i` corresponds to the spec counter `i + 1`. -/
theorem getNamesFromExprAux_eq_specSynthNames (params : List Field) :
    ∀ (pre : String) (i : Nat),
    getNamesFromExprAux params pre i = specSynthNames params pre (i + 1) := by
  induction params with
  | nil => intro pre i; rfl
  | cons f rest ih =>
    intro pre i
    cases f with
    | mk ns te =>
      cases ns with
      | nil => simp [getNamesFromExprAux, specSynthNames, Field.names, ih]
      | cons a as => simp [getNamesFromExprAux, specSynthNames, Field.names, ih]

/-- A successful function-signature lowering names its inputs by
`getNamesFromExpr params "arg"` and its outputs by
`getNamesFromExpr results "out"` (empty when there is no result list). -/
theorem generateTypeFromFuncType_names (env : Env) (fuel : Nat) (params : List Field)
    (results : Option (List Field)) (pkg : String) (im : ImportMap) (ft : FuncType)
    (h : generateTypeFromFuncType env fuel params results pkg im = .ok ft) :
    ft.inputs.map TypeField.name = getNamesFromExpr params "arg"
    ∧ ft.outputs.map TypeField.name =
        results.elim [] (fun rs => getNamesFromExpr rs "out") := by
  cases fuel with
  | zero => simp [generateTypeFromFuncType] at h
  | succ n =>
    rw [generateTypeFromFuncType] at h
    simp only [generateTypeFromFieldList] at h
    cases hp : fieldListLoop env n params (getInputNamesFromAst params) 0 pkg im with
    | error e => rw [hp] at h; simp [Except.bind] at h
    | ok ps =>
      rw [hp] at h
      simp only [Except.bind] at h
      have hin := fieldListLoop_map_name params env n (getInputNamesFromAst params) 0 pkg im ps hp
      rw [List.drop_zero,
        show getInputNamesFromAst params = getNamesFromExprAux params "arg" 0 from rfl,
        ← length_getNamesFromExprAux params "arg" 0, List.take_length] at hin
      cases results with
      | none =>
        simp only [Except.ok.injEq] at h
        rw [← h]
        exact ⟨hin, by simp [FuncType.outputs]⟩
      | some rs =>
        simp only [generateTypeFromFieldList] at h
        cases hr : fieldListLoop env n rs (getOutputNamesFromAst rs) 0 pkg im with
        | error e => rw [hr] at h; simp [Except.map] at h
        | ok os =>
          rw [hr] at h
          simp only [Except.map, Except.ok.injEq] at h
          have hout := fieldListLoop_map_name rs env n (getOutputNamesFromAst rs) 0 pkg im os hr
          rw [List.drop_zero,
            show getOutputNamesFromAst rs = getNamesFromExprAux rs "out" 0 from rfl,
            ← length_getNamesFromExprAux rs "out" 0, List.take_length] at hout
          rw [← h]
          exact ⟨hin, hout⟩

/-- Claim C3: first, the source `getNamesFromExpr` coincides with the
spec synthesis rule (`specSynthNames` with the counter starting at 1:
named entries keep their declared names and do not advance the counter,
unnamed entries get `pre + counter`, counted independently per field
list, i.e. per call); second, a successful function-signature lowering
emits one named field per declared name and one synthesized-name field
per nameless entry, so the emitted input/output names are exactly the
synthesized "arg"/"out" name lists; third, the parameter list
`(a int, int, b string)` lowers to parameters named ["a", "arg1", "b"]. -/
theorem claim_C3 :
    (∀ (params : List Field) (pre : String),
        getNamesFromExpr params pre = specSynthNames params pre 1)
    ∧ (∀ (env : Env) (fuel : Nat) (params : List Field) (results : Option (List Field))
          (pkg : String) (im : ImportMap) (ft : FuncType),
        generateTypeFromFuncType env fuel params results pkg im = .ok ft →
        ft.inputs.map TypeField.name = getNamesFromExpr params "arg"
        ∧ ft.outputs.map TypeField.name =
            results.elim [] (fun rs => getNamesFromExpr rs "out"))
    ∧ generateTypeFromFuncType env0 3 paramsAIntIntB none "p" [] =
        .ok (.mk [.mk "a" (.ofPrim .int), .mk "arg1" (.ofPrim .int),
                  .mk "b" (.ofPrim .string)] [] false) := by
  refine ⟨?_, ?_, ?_⟩
  · intro params pre
    exact getNamesFromExprAux_eq_specSynthNames params pre 0
  · intro env fuel params results pkg im ft h
    exact generateTypeFromFuncType_names env fuel params results pkg im ft h
  · have hn : getInputNamesFromAst [Field.mk ["a"] (.ident "int"), Field.mk [] (.ident "int"),
        Field.mk ["b"] (.ident "string")] = ["a", "arg1", "b"] := by decide
    simp [paramsAIntIntB, generateTypeFromFuncType, generateTypeFromFieldList, fieldListLoop,
      generateTypeFromExpr, generateTypeFromIdent, hn, namedFieldsFromNames, unwrapEllipsis,
      Except.bind, Except.map]

/-- Claim C3 witness: the emitted parameter names of
`(a int, int, b string)` are ["a", "arg1", "b"]. -/
theorem claim_C3_witness :
    generateTypeFromFuncType env0 3 paramsAIntIntB none "p" [] =
      .ok (.mk [.mk "a" (.ofPrim .int), .mk "arg1" (.ofPrim .int),
                .mk "b" (.ofPrim .string)] [] false)
    ∧ (FuncType.mk [.mk "a" (.ofPrim .int), .mk "arg1" (.ofPrim .int),
        .mk "b" (.ofPrim .string)] [] false).inputs.map TypeField.name = ["a", "arg1", "b"] := by
  refine ⟨claim_C3.2.2, ?_⟩
  have h := (claim_C3.2.1 env0 3 paramsAIntIntB none "p" [] _ claim_C3.2.2).1
  rw [h, show getNamesFromExpr paramsAIntIntB "arg" = ["a", "arg1", "b"] by decide]

/-- The interface member loop is a homomorphism for list append: the
methods of a concatenation are the concatenation of the methods. -/
theorem lowerIfaceFields_append (env : Env) (f : Nat) (fs1 fs2 : List Field)
    (pkg : String) (im : ImportMap) :
    lowerIfaceFields env f (fs1 ++ fs2) pkg im =
      (lowerIfaceFields env f fs1 pkg im).bind
        (fun ms1 => (lowerIfaceFields env f fs2 pkg im).map (fun ms2 => ms1 ++ ms2)) := by
  induction fs1 generalizing f with
  | nil =>
    simp only [List.nil_append]
    rw [show lowerIfaceFields env f [] pkg im = .ok [] from by rw [lowerIfaceFields]]
    cases h : lowerIfaceFields env f fs2 pkg im <;> simp [Except.bind, Except.map]
  | cons fld fs1 ih =>
    simp only [List.cons_append]
    cases f with
    | zero =>
      rw [show lowerIfaceFields env 0 (fld :: (fs1 ++ fs2)) pkg im = .error .outOfFuel from
          by rw [lowerIfaceFields],
        show lowerIfaceFields env 0 (fld :: fs1) pkg im = .error .outOfFuel from
          by rw [lowerIfaceFields]]
      simp [Except.bind]
    | succ n =>
      rw [lowerIfaceFields, lowerIfaceFields]
      cases hm : ifaceMemberMethods env n fld pkg im with
      | error e => simp [hm, Except.bind]
      | ok hms =>
        simp only [hm, Except.bind, ih]
        cases h1 : lowerIfaceFields env (n + 1) fs1 pkg im with
        | error e => simp [Except.bind, Except.map]
        | ok ms1 =>
          cases h2 : lowerIfaceFields env (n + 1) fs2 pkg im <;>
            simp [Except.bind, Except.map, List.append_assoc]

/-- Claim C1, amended: an interface member that is a bare identifier
causes a re-entrant call to the batch-resolution entry point
`generateTypesFromSpecs` for (target package identifier, identifier
text); when that call succeeds and its first result carries an
`InterfaceType`, all of its methods are spliced into the embedding
interface method list at exactly the position the embedding reference
occupied relative to its sibling members.  Amended from the original
claim: the code performs no is-an-Interface check, so when the embedded
name does not resolve to an interface, lowering crashes with a
nil-pointer dereference (a Go runtime panic) instead of failing with an
error. -/
theorem claim_C1 (env : Env) (m : Nat) (fs1 fs2 : List Field) (ns : List String)
    (tname pkg : String) (im : ImportMap) (ms1 ms2 : List InterfaceTypeMethod)
    (inner : List GoType) (t0 : GoType) (itf : InterfaceType)
    (h1 : lowerIfaceFields env (m + 2) fs1 pkg im = .ok ms1)
    (h2 : lowerIfaceFields env (m + 2) fs2 pkg im = .ok ms2)
    (h3 : generateTypesFromSpecs env m [TypeSpec.mk pkg tname] = .ok inner)
    (h4 : inner[0]? = some t0)
    (h5 : t0.interfaceType = some itf) :
    lowerIfaceFields env (m + 2) (fs1 ++ .mk ns (.ident tname) :: fs2) pkg im =
      .ok (ms1 ++ itf.methods ++ ms2) := by
  rw [lowerIfaceFields_append, h1]
  rw [show lowerIfaceFields env (m + 2) (Field.mk ns (.ident tname) :: fs2) pkg im =
      (ifaceMemberMethods env (m + 1) (.mk ns (.ident tname)) pkg im).bind
        (fun hm => (lowerIfaceFields env (m + 2) fs2 pkg im).map (fun ms => hm ++ ms)) from
    by rw [lowerIfaceFields]]
  rw [show ifaceMemberMethods env (m + 1) (.mk ns (.ident tname)) pkg im = .ok itf.methods from
    by rw [ifaceMemberMethods]; simp [h3, h4, h5, Except.bind]]
  rw [h2]
  simp [Except.bind, Except.map, List.append_assoc]

/-- Claim C1 counterexample: in a package declaring
`type B interface \x7b A \x7d` and `type A int`, resolving `B`
dereferences the nil `InterfaceType` field of the resolution of `A`: a Go
runtime panic (crash, modelled `Err.runtimePanic`), refuting the claim
that lowering fails rather than crashing when the embedded name does not
resolve to an interface. -/
theorem claim_C1_counterexample :
    generateTypesFromSpecs envPanic 30 [.mk "p" "B"]
      = .error (.runtimePanic "nil pointer dereference") := by
  simp [generateTypesFromSpecs, resolveGroups, generateTypesInSinglePackage, scanFiles,
    scanNamesInFile, generateTypeFromExpr, generateTypeFromInterfaceType, lowerIfaceFields,
    ifaceMemberMethods, generateTypeFromIdent, groupTypeSpecByPackage, dedupFirst,
    generateImportMap, importEntries, goContains, charsContains, getDeclarationByName,
    getDeclarationByName.go, findTypeSpec, resultLookup, specLookup, mapGet, mapLookup,
    zeroGoType, envPanic, filePanic, GoType.interfaceType, GoType.ofPrim, GoType.ofQual,
    Except.map, Except.bind]

/-- Claim C1 witness: `B interface \x7b M(); A \x7d` in package q, with
`A interface \x7b N() \x7d` declared in a different file of q, lowers to
the method list [M, N]: the methods of A are spliced at the position of
the embedding reference. -/
theorem claim_C1_witness :
    lowerIfaceFields envEmbed 22 [.mk ["M"] (.funcType [] none), .mk [] (.ident "A")] "q" []
      = .ok [.mk "M" (.mk [] [] false), .mk "N" (.mk [] [] false)] := by
  have h1 : lowerIfaceFields envEmbed 22 [.mk ["M"] (.funcType [] none)] "q" []
      = .ok [.mk "M" (.mk [] [] false)] := by
    simp [lowerIfaceFields, ifaceMemberMethods, generateTypeFromFuncType,
      generateTypeFromFieldList, fieldListLoop, getInputNamesFromAst, getNamesFromExpr,
      getNamesFromExprAux, Except.bind, Except.map]
  have h2 : lowerIfaceFields envEmbed 22 ([] : List Field) "q" [] = .ok [] := by
    rw [lowerIfaceFields]
  have h3 : generateTypesFromSpecs envEmbed 20 [.mk "q" "A"]
      = .ok [.ofInterface (.mk [.mk "N" (.mk [] [] false)])] := by
    simp [generateTypesFromSpecs, resolveGroups, generateTypesInSinglePackage, scanFiles,
      scanNamesInFile, generateTypeFromExpr, generateTypeFromInterfaceType, lowerIfaceFields,
      ifaceMemberMethods, generateTypeFromFuncType, generateTypeFromFieldList, fieldListLoop,
      getInputNamesFromAst, getNamesFromExpr, getNamesFromExprAux, generateTypeFromIdent,
      groupTypeSpecByPackage, dedupFirst, generateImportMap, importEntries, goContains,
      charsContains, getDeclarationByName, getDeclarationByName.go, findTypeSpec, resultLookup,
      specLookup, mapGet, mapLookup, zeroGoType, envEmbed, fileEmbedA, fileEmbedB,
      GoType.ofInterface, Except.map, Except.bind]
  have := claim_C1 envEmbed 20 [.mk ["M"] (.funcType [] none)] [] [] "A" "q" []
    [.mk "M" (.mk [] [] false)] [] [.ofInterface (.mk [.mk "N" (.mk [] [] false)])]
    (.ofInterface (.mk [.mk "N" (.mk [] [] false)])) (.mk [.mk "N" (.mk [] [] false)])
    h1 h2 h3 rfl rfl
  simpa [InterfaceType.methods] using this

/-- The per-file name scan only removes names from the working set. -/
theorem scanNamesInFile_rem_subset (remaining : List String) :
    ∀ (env : Env) (fuel : Nat) (pkg : String) (im : ImportMap) (fileAst : GoFile)
      (rm : List (String × GoType)) (st : List (String × GoType) × List String),
    scanNamesInFile env fuel pkg im fileAst remaining rm = .ok st → st.2 ⊆ remaining := by
  induction remaining with
  | nil =>
    intro env fuel pkg im fileAst rm st h
    simp [scanNamesInFile] at h
    simp [← h]
  | cons name rest ih =>
    intro env fuel pkg im fileAst rm st h
    rw [scanNamesInFile] at h
    cases hd : getDeclarationByName fileAst name with
    | none =>
      rw [hd] at h
      cases hrec : scanNamesInFile env fuel pkg im fileAst rest rm with
      | error e => rw [hrec] at h; simp [Except.map] at h
      | ok st1 =>
        rw [hrec] at h
        simp [Except.map] at h
        have := ih env fuel pkg im fileAst rm st1 hrec
        rw [← h]
        exact List.cons_subset_cons name this
    | some tyExpr =>
      rw [hd] at h
      cases fuel with
      | zero => simp at h
      | succ n =>
        simp only [Except.bind] at h
        cases hT : generateTypeFromExpr env n tyExpr pkg im with
        | error e => rw [hT] at h; simp at h
        | ok t =>
          rw [hT] at h
          have := ih env (n + 1) pkg im fileAst ((name, t) :: rm) st h
          exact this.trans (List.subset_cons_self name rest)

/-- The file scan only removes names from the working set. -/
theorem scanFiles_rem_subset (files : List String) :
    ∀ (env : Env) (fuel : Nat) (pkg : String) (remaining : List String)
      (rm : List (String × GoType)) (st : List (String × GoType) × List String),
    scanFiles env fuel pkg files remaining rm = .ok st → st.2 ⊆ remaining := by
  induction files with
  | nil =>
    intro env fuel pkg remaining rm st h
    simp [scanFiles] at h
    simp [← h]
  | cons source rest ih =>
    intro env fuel pkg remaining rm st h
    cases remaining with
    | nil =>
      rw [show scanFiles env fuel pkg (source :: rest) [] rm = .ok (rm, []) from
        by rw [scanFiles]] at h
      simp at h
      simp [← h]
    | cons r0 rrest =>
      cases fuel with
      | zero => rw [scanFiles] at h; simp at h
      | succ n =>
        rw [scanFiles] at h
        simp only [Except.bind] at h
        cases hp : env.parseAstFile source with
        | error e => rw [hp] at h; simp at h
        | ok fileAst =>
          rw [hp] at h
          simp only [Except.bind] at h
          cases hs : scanNamesInFile env n pkg (generateImportMap pkg fileAst) fileAst
              (r0 :: rrest) rm with
          | error e => rw [hs] at h; simp at h
          | ok st1 =>
            rw [hs] at h
            have hsub1 := scanNamesInFile_rem_subset (r0 :: rrest) env n pkg
              (generateImportMap pkg fileAst) fileAst rm st1 hs
            have hsub2 := ih env (n + 1) pkg st1.2 st1.1 st h
            exact hsub2.trans hsub1

/-- De-duplication introduces no new names. -/
theorem mem_dedupFirst (names : List String) (x : String) :
    x ∈ dedupFirst names → x ∈ names := by
  have key : ∀ (l : List String) (acc : List String),
      x ∈ l.foldl (fun acc n => if n ∈ acc then acc else acc ++ [n]) acc →
      x ∈ acc ∨ x ∈ l := by
    intro l
    induction l with
    | nil => intro acc h; exact Or.inl h
    | cons n rest ih =>
      intro acc h
      rcases ih (if n ∈ acc then acc else acc ++ [n]) h with h1 | h1
      · by_cases hn : n ∈ acc
        · rw [if_pos hn] at h1; exact Or.inl h1
        · rw [if_neg hn] at h1
          rcases List.mem_append.mp h1 with h2 | h2
          · exact Or.inl h2
          · simp at h2; subst h2; exact Or.inr (List.mem_cons_self _ _)
      · exact Or.inr (List.mem_cons_of_mem _ h1)
  intro h
  rcases key names [] h with h1 | h1
  · simp at h1
  · exact h1

/-- Claim C5: if the scan of all the source files of a package completes
and leaves a non-empty working set, `generateTypesInSinglePackage` fails
with the declaration-not-found error naming a missing name, that name is
one of the requested names, and a batch whose requests group to exactly
this package fails with the same error through
`generateTypesFromSpecs`: no results are returned for any request of
the batch, including those that were resolved during the scan. -/
theorem claim_C5 (env : Env) (n : Nat) (pkg : String) (names : List String)
    (files : List String) (rm : List (String × GoType)) (m : String) (ms : List String)
    (specs : List TypeSpec)
    (h1 : env.getPackageSourceFiles pkg = .ok files)
    (h2 : scanFiles env n pkg files (dedupFirst names) [] = .ok (rm, m :: ms)) :
    generateTypesInSinglePackage env (n + 1) pkg names = .error (.declarationNotFound m)
    ∧ m ∈ names
    ∧ (groupTypeSpecByPackage specs = [(pkg, names)] →
        generateTypesFromSpecs env (n + 3) specs = .error (.declarationNotFound m)) := by
  have hsingle : generateTypesInSinglePackage env (n + 1) pkg names
      = .error (.declarationNotFound m) := by
    rw [generateTypesInSinglePackage, h1]
    simp [Except.bind, h2]
  refine ⟨hsingle, ?_, ?_⟩
  · have hsub := scanFiles_rem_subset files env n pkg (dedupFirst names) [] (rm, m :: ms) h2
    exact mem_dedupFirst names m (hsub (List.mem_cons_self m ms))
  · intro hg
    rw [generateTypesFromSpecs, hg, resolveGroups]
    simp [hsingle, Except.bind, Except.map]

/-- Claim C5 witness: requesting A and C of a package declaring only A
and B fails the single-package resolution and the whole two-request batch
with declaration-not-found for C, although A was resolved. -/
theorem claim_C5_witness :
    generateTypesInSinglePackage envAB 11 "p" ["A", "C"] = .error (.declarationNotFound "C")
    ∧ generateTypesFromSpecs envAB 13 [.mk "p" "A", .mk "p" "C"]
        = .error (.declarationNotFound "C") := by
  have h2 : scanFiles envAB 10 "p" ["p.go"] (dedupFirst ["A", "C"]) []
      = .ok ([("A", GoType.ofPrim .int)], ["C"]) := by
    simp [scanFiles, scanNamesInFile, dedupFirst, envAB, fileAB, generateImportMap,
      importEntries, goContains, charsContains, getDeclarationByName, getDeclarationByName.go,
      findTypeSpec, generateTypeFromExpr, generateTypeFromIdent, Except.bind, Except.map]
  have h := claim_C5 envAB 10 "p" ["A", "C"] ["p.go"] [("A", GoType.ofPrim .int)] "C" []
    [.mk "p" "A", .mk "p" "C"] rfl h2
  exact ⟨h.1, h.2.2 (by decide)⟩

/-- Claim C4: a successful `generateTypesFromSpecs` call returns exactly
one canonical type per request: the result list is the request list
mapped positionally through the resolution map assembled from the
per-package results, so it has the same length and order as the input,
and duplicate requests receive equal results at their original
positions. -/
theorem claim_C4 (env : Env) (fuel : Nat) (specs : List TypeSpec) (res : List GoType)
    (h : generateTypesFromSpecs env fuel specs = .ok res) :
    res.length = specs.length
    ∧ (∀ i j : Nat, specs[i]? = specs[j]? → res[i]? = res[j]?)
    ∧ ∃ pairs, resolveGroups env (fuel - 1) (groupTypeSpecByPackage specs) = .ok pairs
        ∧ res = specs.map (fun s => (specLookup pairs s).getD zeroGoType) := by
  cases fuel with
  | zero => simp [generateTypesFromSpecs] at h
  | succ n =>
    rw [generateTypesFromSpecs] at h
    cases hr : resolveGroups env n (groupTypeSpecByPackage specs) with
    | error e => rw [hr] at h; simp [Except.map] at h
    | ok pairs =>
      rw [hr] at h
      simp only [Except.map, Except.ok.injEq] at h
      refine ⟨by rw [← h]; simp, ?_, pairs, by simpa using hr, h.symm⟩
      intro i j hij
      rw [← h]
      simp only [List.getElem?_map, hij]

/-- Claim C4 witness: the batch [A, B, A] succeeds with three results in
request order, the two occurrences of A receiving the same result. -/
theorem claim_C4_witness :
    ∃ res, generateTypesFromSpecs envAB 20 [.mk "p" "A", .mk "p" "B", .mk "p" "A"] = .ok res
      ∧ res.length = 3 ∧ res[0]? = res[2]? := by
  have hok : generateTypesFromSpecs envAB 20 [.mk "p" "A", .mk "p" "B", .mk "p" "A"]
      = .ok [.ofPrim .int, .ofPrim .string, .ofPrim .int] := by
    simp [generateTypesFromSpecs, resolveGroups, generateTypesInSinglePackage, scanFiles,
      scanNamesInFile, generateTypeFromExpr, generateTypeFromIdent, groupTypeSpecByPackage,
      dedupFirst, generateImportMap, importEntries, goContains, charsContains,
      getDeclarationByName, getDeclarationByName.go, findTypeSpec, resultLookup, specLookup,
      mapGet, mapLookup, zeroGoType, envAB, fileAB, Except.map, Except.bind]
  have h := claim_C4 envAB 20 [.mk "p" "A", .mk "p" "B", .mk "p" "A"]
    [.ofPrim .int, .ofPrim .string, .ofPrim .int] hok
  exact ⟨[.ofPrim .int, .ofPrim .string, .ofPrim .int], hok, by simp,
    h.2.1 0 2 (by decide)⟩

/-- A primitive literal is well-formed. -/
theorem wf_ofPrim (k : PrimitiveKind) : (GoType.ofPrim k).wf = true := rfl

/-- A qualified-reference literal is well-formed. -/
theorem wf_ofQual (q : QualType) : (GoType.ofQual q).wf = true := rfl

/-- Well-formedness of a pointer literal reduces to its element. -/
theorem wf_ofPtr (e : GoType) : (GoType.ofPtr (.mk e)).wf = e.wf := by
  simp [GoType.ofPtr, GoType.wf, optCount, wfOptPtr, wfOptSlice, wfOptArray, wfOptMap,
    wfOptChan, wfOptFunc, wfOptStruct, wfOptInterface]

/-- Well-formedness of a slice literal reduces to its element. -/
theorem wf_ofSlice (e : GoType) : (GoType.ofSlice (.mk e)).wf = e.wf := by
  simp [GoType.ofSlice, GoType.wf, optCount, wfOptPtr, wfOptSlice, wfOptArray, wfOptMap,
    wfOptChan, wfOptFunc, wfOptStruct, wfOptInterface]

/-- Well-formedness of an array literal reduces to its element. -/
theorem wf_ofArray (l : Nat) (e : GoType) : (GoType.ofArray (.mk l e)).wf = e.wf := by
  simp [GoType.ofArray, GoType.wf, optCount, wfOptPtr, wfOptSlice, wfOptArray, wfOptMap,
    wfOptChan, wfOptFunc, wfOptStruct, wfOptInterface]

/-- Well-formedness of a map literal reduces to its key and element. -/
theorem wf_ofMap (k e : GoType) : (GoType.ofMap (.mk k e)).wf = (k.wf && e.wf) := by
  simp [GoType.ofMap, GoType.wf, optCount, wfOptPtr, wfOptSlice, wfOptArray, wfOptMap,
    wfOptChan, wfOptFunc, wfOptStruct, wfOptInterface]

/-- Well-formedness of a channel literal reduces to its element. -/
theorem wf_ofChan (d : ChanTypeDir) (e : GoType) : (GoType.ofChan (.mk d e)).wf = e.wf := by
  simp [GoType.ofChan, GoType.wf, optCount, wfOptPtr, wfOptSlice, wfOptArray, wfOptMap,
    wfOptChan, wfOptFunc, wfOptStruct, wfOptInterface]

/-- Well-formedness of a function literal reduces to its signature. -/
theorem wf_ofFunc (f : FuncType) : (GoType.ofFunc f).wf = f.wf := by
  simp [GoType.ofFunc, GoType.wf, optCount, wfOptPtr, wfOptSlice, wfOptArray, wfOptMap,
    wfOptChan, wfOptFunc, wfOptStruct, wfOptInterface]

/-- Well-formedness of a struct literal reduces to its fields. -/
theorem wf_ofStruct (fs : List TypeField) :
    (GoType.ofStruct (.mk fs)).wf = wfFields fs := by
  simp [GoType.ofStruct, GoType.wf, optCount, wfOptPtr, wfOptSlice, wfOptArray, wfOptMap,
    wfOptChan, wfOptFunc, wfOptStruct, wfOptInterface]

/-- Well-formedness of an interface literal reduces to its methods. -/
theorem wf_ofInterface (ms : List InterfaceTypeMethod) :
    (GoType.ofInterface (.mk ms)).wf = wfMethods ms := by
  simp [GoType.ofInterface, GoType.wf, optCount, wfOptPtr, wfOptSlice, wfOptArray, wfOptMap,
    wfOptChan, wfOptFunc, wfOptStruct, wfOptInterface]

/-- A well-formed type with a populated interface payload has
well-formed methods. -/
theorem wf_interfaceType (t : GoType) (itf : InterfaceType) (hwf : t.wf = true)
    (hit : t.interfaceType = some itf) : wfMethods itf.methods = true := by
  cases t with
  | mk p q pt sl ar mp ch fn st it =>
    cases itf with
    | mk ms =>
      simp [GoType.interfaceType] at hit
      subst hit
      simp [GoType.wf, wfOptInterface, InterfaceType.methods] at hwf ⊢
      tauto

/-- Field well-formedness distributes over append. -/
theorem wfFields_append (a b : List TypeField) :
    wfFields (a ++ b) = (wfFields a && wfFields b) := by
  induction a with
  | nil => simp [wfFields]
  | cons f rest ih =>
    cases f with
    | mk nm t => simp [wfFields, ih, Bool.and_assoc]

/-- Method well-formedness distributes over append. -/
theorem wfMethods_append (a b : List InterfaceTypeMethod) :
    wfMethods (a ++ b) = (wfMethods a && wfMethods b) := by
  induction a with
  | nil => simp [wfMethods]
  | cons m rest ih =>
    cases m with
    | mk nm f => simp [wfMethods, ih, Bool.and_assoc]

/-- The named-group inner loop emits well-formed fields when the shared
type is well-formed. -/
theorem wf_namedFieldsFromNames (k : Nat) :
    ∀ (i : Nat) (names : List String) (t : GoType) (hfs : List TypeField),
    namedFieldsFromNames names i k t = .ok hfs → t.wf = true → wfFields hfs = true := by
  induction k with
  | zero =>
    intro i names t hfs h ht
    simp only [namedFieldsFromNames, Except.ok.injEq] at h
    subst h
    rfl
  | succ k ih =>
    intro i names t hfs h ht
    rw [namedFieldsFromNames] at h
    cases hni : names[i]? with
    | none => rw [hni] at h; simp at h
    | some nm =>
      rw [hni] at h
      cases hrec : namedFieldsFromNames names (i + 1) k t with
      | error e => rw [hrec] at h; simp [Except.map] at h
      | ok tfs =>
        rw [hrec] at h
        simp [Except.map] at h
        rw [← h]
        simp [wfFields, ht, ih (i + 1) names t tfs hrec ht]

/-- A defaulted lookup in a result map with well-formed values and the
key present yields a well-formed value. -/
theorem resultLookup_wf (rm : List (String × GoType))
    (hwf : ∀ pr ∈ rm, (pr : String × GoType).2.wf = true) (nm : String)
    (hkey : ∃ pr ∈ rm, (pr : String × GoType).1 = nm) :
    ((resultLookup rm nm).getD zeroGoType).wf = true := by
  obtain ⟨pr, hmem, hk⟩ := hkey
  cases hf : rm.find? (fun p => p.1 == nm) with
  | none =>
    rw [List.find?_eq_none] at hf
    exact absurd (by simp [hk]) (hf pr hmem)
  | some pr' =>
    have hmem' := List.mem_of_find?_eq_some hf
    simp [resultLookup, hf]
    exact hwf pr' hmem'

/-- A defaulted lookup in a request map with well-formed values and the
key present yields a well-formed value. -/
theorem specLookup_wf (pairs : List (TypeSpec × GoType))
    (hwf : ∀ pr ∈ pairs, (pr : TypeSpec × GoType).2.wf = true) (s : TypeSpec)
    (hkey : ∃ pr ∈ pairs, (pr : TypeSpec × GoType).1 = s) :
    ((specLookup pairs s).getD zeroGoType).wf = true := by
  obtain ⟨pr, hmem, hk⟩ := hkey
  cases hf : pairs.find? (fun p => p.1 == s) with
  | none =>
    rw [List.find?_eq_none] at hf
    exact absurd (by simp [hk]) (hf pr hmem)
  | some pr' =>
    have hmem' := List.mem_of_find?_eq_some hf
    simp [specLookup, hf]
    exact hwf pr' hmem'

/-- De-duplication keeps every name. -/
theorem mem_dedupFirst_of_mem (names : List String) (x : String) (hx : x ∈ names) :
    x ∈ dedupFirst names := by
  have key : ∀ (l acc : List String), x ∈ acc ∨ x ∈ l →
      x ∈ l.foldl (fun acc n => if n ∈ acc then acc else acc ++ [n]) acc := by
    intro l
    induction l with
    | nil => intro acc h; simpa using h
    | cons n rest ih =>
      intro acc h
      apply ih
      rcases h with h | h
      · left; by_cases hn : n ∈ acc <;> simp [hn, h]
      · rcases List.mem_cons.mp h with h | h
        · subst h
          left
          by_cases hn : x ∈ acc <;> simp [hn]
        · right; exact h
  exact key names [] (Or.inr hx)

/-- Every request is covered by the group of its package. -/
theorem group_cover (specs : List TypeSpec) (s : TypeSpec) (hs : s ∈ specs) :
    ∃ g ∈ groupTypeSpecByPackage specs,
      (g : String × List String).1 = s.packagePath ∧ s.name ∈ g.2 := by
  have step : ∀ (sp : TypeSpec) (acc : List (String × List String)),
      ∃ g ∈ (if acc.any (fun p => p.1 == sp.packagePath) then
          acc.map (fun p => if p.1 == sp.packagePath then (p.1, p.2 ++ [sp.name]) else p)
        else acc ++ [(sp.packagePath, [sp.name])]),
        (g : String × List String).1 = sp.packagePath ∧ sp.name ∈ g.2 := by
    intro sp acc
    by_cases ha : acc.any (fun p => p.1 == sp.packagePath)
    · rw [if_pos ha]
      obtain ⟨p, hp, hpk⟩ := List.any_eq_true.mp ha
      refine ⟨(p.1, p.2 ++ [sp.name]), ?_, by simpa using hpk, by simp⟩
      have : (if p.1 == sp.packagePath then (p.1, p.2 ++ [sp.name]) else p) =
          (p.1, p.2 ++ [sp.name]) := by rw [if_pos hpk]
      rw [← this]
      exact List.mem_map_of_mem _ hp
    · rw [if_neg ha]
      exact ⟨(sp.packagePath, [sp.name]), by simp, rfl, by simp⟩
  have keep : ∀ (sp : TypeSpec) (acc : List (String × List String)) (g : String × List String),
      g ∈ acc → (g.1 = s.packagePath ∧ s.name ∈ g.2) →
      ∃ g' ∈ (if acc.any (fun p => p.1 == sp.packagePath) then
          acc.map (fun p => if p.1 == sp.packagePath then (p.1, p.2 ++ [sp.name]) else p)
        else acc ++ [(sp.packagePath, [sp.name])]),
        (g' : String × List String).1 = s.packagePath ∧ s.name ∈ g'.2 := by
    intro sp acc g hg ⟨hg1, hg2⟩
    by_cases ha : acc.any (fun p => p.1 == sp.packagePath)
    · rw [if_pos ha]
      by_cases hk : g.1 == sp.packagePath
      · refine ⟨(g.1, g.2 ++ [sp.name]), ?_, hg1, by simp [hg2]⟩
        have : (if g.1 == sp.packagePath then (g.1, g.2 ++ [sp.name]) else g) =
            (g.1, g.2 ++ [sp.name]) := by rw [if_pos hk]
        rw [← this]
        exact List.mem_map_of_mem _ hg
      · refine ⟨g, ?_, hg1, hg2⟩
        have : (if g.1 == sp.packagePath then (g.1, g.2 ++ [sp.name]) else g) = g := by
          rw [if_neg (by simpa using hk)]
        rw [← this]
        exact List.mem_map_of_mem _ hg
    · rw [if_neg ha]
      exact ⟨g, List.mem_append_left _ hg, hg1, hg2⟩
  have key : ∀ (l : List TypeSpec) (acc : List (String × List String)),
      (s ∈ l ∨ ∃ g ∈ acc, (g : String × List String).1 = s.packagePath ∧ s.name ∈ g.2) →
      ∃ g ∈ l.foldl (fun acc sp =>
          if acc.any (fun p => p.1 == sp.packagePath) then
            acc.map (fun p => if p.1 == sp.packagePath then (p.1, p.2 ++ [sp.name]) else p)
          else acc ++ [(sp.packagePath, [sp.name])]) acc,
        (g : String × List String).1 = s.packagePath ∧ s.name ∈ g.2 := by
    intro l
    induction l with
    | nil =>
      intro acc h
      rcases h with h | h
      · simp at h
      · simpa using h
    | cons sp rest ih =>
      intro acc h
      apply ih
      rcases h with h | h
      · rcases List.mem_cons.mp h with h | h
        · subst h
          right
          exact step s acc
        · left; exact h
      · right
        obtain ⟨g, hg, hg12⟩ := h
        exact keep sp acc g hg hg12
  have := key specs [] (Or.inl hs)
  simpa [groupTypeSpecByPackage] using this

/-- Identifier lowering always yields a well-formed type. -/
theorem generateTypeFromIdent_wf (name pkg : String) (im : ImportMap) :
    (generateTypeFromIdent name pkg im).wf = true := by
  unfold generateTypeFromIdent
  split <;> first | exact wf_ofPrim _ | exact wf_ofQual _

/-- Selector lowering yields a well-formed type on success. -/
theorem generateTypeFromSelectorExpr_wf (x : Expr) (sel : String) (im : ImportMap)
    (t : GoType) (h : generateTypeFromSelectorExpr x sel im = .ok t) : t.wf = true := by
  cases x <;> simp [generateTypeFromSelectorExpr] at h
  case ident shortImport =>
    cases hl : mapLookup im shortImport with
    | none => rw [hl] at h; simp at h
    | some importPath =>
      rw [hl] at h
      simp at h
      rw [← h]
      exact wf_ofQual _

/-- The field-list loop emits well-formed fields, assuming expression
lowering at one fuel level below is well-formed. -/
theorem floop_wf (env : Env) (fuel : Nat)
    (hexpr : ∀ e pkg im t, generateTypeFromExpr env (fuel - 1) e pkg im = .ok t →
      t.wf = true) :
    ∀ (fields : List Field) (names : List String) (i : Nat) (pkg : String) (im : ImportMap)
      (st : List TypeField × Bool),
    fieldListLoop env fuel fields names i pkg im = .ok st → wfFields st.1 = true := by
  intro fields
  induction fields with
  | nil =>
    intro names i pkg im st h
    simp only [fieldListLoop, Except.ok.injEq] at h
    rw [← h]
    rfl
  | cons f rest ih =>
    intro names i pkg im st h
    cases f with
    | mk fnames ftype =>
      cases fuel with
      | zero => rw [fieldListLoop] at h; simp at h
      | succ n =>
        rw [fieldListLoop] at h
        cases hT : generateTypeFromExpr env n (unwrapEllipsis ftype).2 pkg im with
        | error e => rw [hT] at h; simp [Except.bind] at h
        | ok t =>
          rw [hT] at h
          simp only [Except.bind] at h
          have ht : t.wf = true := hexpr _ pkg im t hT
          cases fnames with
          | nil =>
            cases hni : names[i]? with
            | none => rw [hni] at h; simp at h
            | some nm =>
              rw [hni] at h
              cases hrec : fieldListLoop env (n + 1) rest names (i + 1) pkg im with
              | error e => rw [hrec] at h; simp [Except.map] at h
              | ok acc =>
                rw [hrec] at h
                simp [Except.map] at h
                rw [← h]
                simp [wfFields, ht, ih names (i + 1) pkg im acc hrec]
          | cons a as =>
            cases hnf : namedFieldsFromNames names i (a :: as).length t with
            | error e => rw [hnf] at h; simp at h
            | ok hfs =>
              rw [hnf] at h
              simp only [Except.bind] at h
              cases hrec : fieldListLoop env (n + 1) rest names (i + (a :: as).length)
                  pkg im with
              | error e => rw [hrec] at h; simp [Except.map] at h
              | ok acc =>
                rw [hrec] at h
                simp [Except.map] at h
                rw [← h]
                simp [wfFields_append,
                  wf_namedFieldsFromNames (a :: as).length i names t hfs hnf ht,
                  ih names (i + (a :: as).length) pkg im acc hrec]

/-- The struct inner name loop emits well-formed fields, assuming
expression lowering at one fuel level below is well-formed. -/
theorem snloop_wf (env : Env) (fuel : Nat)
    (hexpr : ∀ e pkg im t, generateTypeFromExpr env (fuel - 1) e pkg im = .ok t →
      t.wf = true) :
    ∀ (ns : List String) (te : Expr) (pkg : String) (im : ImportMap) (tfs : List TypeField),
    structNamesLoop env fuel ns te pkg im = .ok tfs → wfFields tfs = true := by
  intro ns
  induction ns with
  | nil =>
    intro te pkg im tfs h
    simp only [structNamesLoop, Except.ok.injEq] at h
    rw [← h]
    rfl
  | cons nm more ih =>
    intro te pkg im tfs h
    cases fuel with
    | zero => rw [structNamesLoop] at h; simp at h
    | succ n =>
      rw [structNamesLoop] at h
      cases hT : generateTypeFromExpr env n te pkg im with
      | error e => rw [hT] at h; simp [Except.bind] at h
      | ok t =>
        rw [hT] at h
        simp only [Except.bind] at h
        cases hrec : structNamesLoop env (n + 1) more te pkg im with
        | error e => rw [hrec] at h; simp [Except.map] at h
        | ok tfs1 =>
          rw [hrec] at h
          simp [Except.map] at h
          rw [← h]
          simp [wfFields, hexpr _ pkg im t hT, ih te pkg im tfs1 hrec]

/-- The struct field loop emits well-formed fields, assuming the inner
name loop at one fuel level below does. -/
theorem sfloop_wf (env : Env) (fuel : Nat)
    (hsn : ∀ ns te pkg im tfs, structNamesLoop env (fuel - 1) ns te pkg im = .ok tfs →
      wfFields tfs = true) :
    ∀ (fields : List Field) (pkg : String) (im : ImportMap) (tfs : List TypeField),
    structFieldsLoop env fuel fields pkg im = .ok tfs → wfFields tfs = true := by
  intro fields
  induction fields with
  | nil =>
    intro pkg im tfs h
    simp only [structFieldsLoop, Except.ok.injEq] at h
    rw [← h]
    rfl
  | cons f rest ih =>
    intro pkg im tfs h
    cases f with
    | mk ns te =>
      cases fuel with
      | zero => rw [structFieldsLoop] at h; simp at h
      | succ n =>
        rw [structFieldsLoop] at h
        cases hN : structNamesLoop env n ns te pkg im with
        | error e => rw [hN] at h; simp [Except.bind] at h
        | ok hfs =>
          rw [hN] at h
          simp only [Except.bind] at h
          cases hrec : structFieldsLoop env (n + 1) rest pkg im with
          | error e => rw [hrec] at h; simp [Except.map] at h
          | ok tfs1 =>
            rw [hrec] at h
            simp [Except.map] at h
            rw [← h]
            simp [wfFields_append, hsn ns te pkg im hfs hN, ih pkg im tfs1 hrec]

/-- The interface member loop emits well-formed methods, assuming the
per-member lowering at one fuel level below does. -/
theorem ifloop_wf (env : Env) (fuel : Nat)
    (hmem : ∀ fld pkg im ms, ifaceMemberMethods env (fuel - 1) fld pkg im = .ok ms →
      wfMethods ms = true) :
    ∀ (fields : List Field) (pkg : String) (im : ImportMap) (ms : List InterfaceTypeMethod),
    lowerIfaceFields env fuel fields pkg im = .ok ms → wfMethods ms = true := by
  intro fields
  induction fields with
  | nil =>
    intro pkg im ms h
    simp only [lowerIfaceFields, Except.ok.injEq] at h
    rw [← h]
    rfl
  | cons fld rest ih =>
    intro pkg im ms h
    cases fuel with
    | zero => rw [lowerIfaceFields] at h; simp at h
    | succ n =>
      rw [lowerIfaceFields] at h
      cases hM : ifaceMemberMethods env n fld pkg im with
      | error e => rw [hM] at h; simp [Except.bind] at h
      | ok hms =>
        rw [hM] at h
        simp only [Except.bind] at h
        cases hrec : lowerIfaceFields env (n + 1) rest pkg im with
        | error e => rw [hrec] at h; simp [Except.map] at h
        | ok ms1 =>
          rw [hrec] at h
          simp [Except.map] at h
          rw [← h]
          simp [wfMethods_append, hmem fld pkg im hms hM, ih pkg im ms1 hrec]

/-- The per-file name scan preserves the invariant: stored results are
well-formed, every scanned name is either still wanted or bound, and
previous bindings persist. -/
theorem snames_wf (env : Env) (fuel : Nat)
    (hexpr : ∀ e pkg im t, generateTypeFromExpr env (fuel - 1) e pkg im = .ok t →
      t.wf = true) :
    ∀ (remaining : List String) (pkg : String) (im : ImportMap) (fileAst : GoFile)
      (rm : List (String × GoType)) (st : List (String × GoType) × List String),
    (∀ pr ∈ rm, (pr : String × GoType).2.wf = true) →
    scanNamesInFile env fuel pkg im fileAst remaining rm = .ok st →
    (∀ pr ∈ st.1, (pr : String × GoType).2.wf = true) ∧
    (∀ nm ∈ remaining, nm ∈ st.2 ∨ ∃ pr ∈ st.1, (pr : String × GoType).1 = nm) ∧
    (∀ pr ∈ rm, pr ∈ st.1) := by
  intro remaining
  induction remaining with
  | nil =>
    intro pkg im fileAst rm st hwf h
    simp only [scanNamesInFile, Except.ok.injEq] at h
    rw [← h]
    exact ⟨hwf, by simp, fun pr hpr => hpr⟩
  | cons name rest ih =>
    intro pkg im fileAst rm st hwf h
    rw [scanNamesInFile] at h
    cases hd : getDeclarationByName fileAst name with
    | none =>
      rw [hd] at h
      cases hrec : scanNamesInFile env fuel pkg im fileAst rest rm with
      | error e => rw [hrec] at h; simp [Except.map] at h
      | ok st1 =>
        rw [hrec] at h
        simp only [Except.map, Except.ok.injEq] at h
        obtain ⟨v1, c1, m1⟩ := ih pkg im fileAst rm st1 hwf hrec
        rw [← h]
        refine ⟨v1, ?_, m1⟩
        intro nm hnm
        rcases List.mem_cons.mp hnm with hnm | hnm
        · subst hnm; exact Or.inl (List.mem_cons_self _ _)
        · rcases c1 nm hnm with hc | hc
          · exact Or.inl (List.mem_cons_of_mem _ hc)
          · exact Or.inr hc
    | some tyExpr =>
      rw [hd] at h
      cases fuel with
      | zero => simp at h
      | succ n =>
        simp only [Except.bind] at h
        cases hT : generateTypeFromExpr env n tyExpr pkg im with
        | error e => rw [hT] at h; simp at h
        | ok t =>
          rw [hT] at h
          have ht : t.wf = true := hexpr tyExpr pkg im t hT
          have hwf2 : ∀ pr ∈ (name, t) :: rm, (pr : String × GoType).2.wf = true := by
            intro pr hpr
            rcases List.mem_cons.mp hpr with hpr | hpr
            · rw [hpr]; exact ht
            · exact hwf pr hpr
          obtain ⟨v1, c1, m1⟩ := ih pkg im fileAst ((name, t) :: rm) st hwf2 h
          refine ⟨v1, ?_, ?_⟩
          · intro nm hnm
            rcases List.mem_cons.mp hnm with hnm | hnm
            · subst hnm
              exact Or.inr ⟨(nm, t), m1 _ (List.mem_cons_self _ _), rfl⟩
            · exact c1 nm hnm
          · intro pr hpr
            exact m1 pr (List.mem_cons_of_mem _ hpr)

/-- The file scan preserves the invariant: stored results are
well-formed, every wanted name is either still wanted or bound, and
previous bindings persist. -/
theorem sfiles_wf (env : Env) (fuel : Nat)
    (hsn : ∀ (remaining : List String) (pkg : String) (im : ImportMap) (fileAst : GoFile)
        (rm : List (String × GoType)) (st : List (String × GoType) × List String),
      (∀ pr ∈ rm, (pr : String × GoType).2.wf = true) →
      scanNamesInFile env (fuel - 1) pkg im fileAst remaining rm = .ok st →
      (∀ pr ∈ st.1, (pr : String × GoType).2.wf = true) ∧
      (∀ nm ∈ remaining, nm ∈ st.2 ∨ ∃ pr ∈ st.1, (pr : String × GoType).1 = nm) ∧
      (∀ pr ∈ rm, pr ∈ st.1)) :
    ∀ (files : List String) (pkg : String) (remaining : List String)
      (rm : List (String × GoType)) (st : List (String × GoType) × List String),
    (∀ pr ∈ rm, (pr : String × GoType).2.wf = true) →
    scanFiles env fuel pkg files remaining rm = .ok st →
    (∀ pr ∈ st.1, (pr : String × GoType).2.wf = true) ∧
    (∀ nm ∈ remaining, nm ∈ st.2 ∨ ∃ pr ∈ st.1, (pr : String × GoType).1 = nm) ∧
    (∀ pr ∈ rm, pr ∈ st.1) := by
  intro files
  induction files with
  | nil =>
    intro pkg remaining rm st hwf h
    simp only [scanFiles, Except.ok.injEq] at h
    rw [← h]
    exact ⟨hwf, fun nm hnm => Or.inl hnm, fun pr hpr => hpr⟩
  | cons source rest ih =>
    intro pkg remaining rm st hwf h
    cases remaining with
    | nil =>
      rw [show scanFiles env fuel pkg (source :: rest) [] rm = .ok (rm, []) from
        by rw [scanFiles]] at h
      simp only [Except.ok.injEq] at h
      rw [← h]
      exact ⟨hwf, by simp, fun pr hpr => hpr⟩
    | cons r0 rrest =>
      cases fuel with
      | zero => rw [scanFiles] at h; simp at h
      | succ n =>
        rw [scanFiles] at h
        simp only [Except.bind] at h
        cases hp : env.parseAstFile source with
        | error e => rw [hp] at h; simp at h
        | ok fileAst =>
          rw [hp] at h
          simp only [Except.bind] at h
          cases hs : scanNamesInFile env n pkg (generateImportMap pkg fileAst) fileAst
              (r0 :: rrest) rm with
          | error e => rw [hs] at h; simp at h
          | ok st1 =>
            rw [hs] at h
            obtain ⟨v1, c1, m1⟩ := hsn (r0 :: rrest) pkg (generateImportMap pkg fileAst)
              fileAst rm st1 hwf hs
            obtain ⟨v2, c2, m2⟩ := ih pkg st1.2 st1.1 st v1 h
            refine ⟨v2, ?_, fun pr hpr => m2 pr (m1 pr hpr)⟩
            intro nm hnm
            rcases c1 nm hnm with hc | hc
            · rcases c2 nm hc with hc2 | hc2
              · exact Or.inl hc2
              · exact Or.inr hc2
            · obtain ⟨pr, hpr, hk⟩ := hc
              exact Or.inr ⟨pr, m2 pr hpr, hk⟩

/-- Group resolution yields well-formed values and binds every requested
name of every group. -/
theorem rgroups_wf (env : Env) (fuel : Nat)
    (hsingle : ∀ pkg names res, generateTypesInSinglePackage env (fuel - 1) pkg names = .ok res →
      (∀ t ∈ res, t.wf = true) ∧ res.length = names.length) :
    ∀ (gs : List (String × List String)) (pairs : List (TypeSpec × GoType)),
    resolveGroups env fuel gs = .ok pairs →
    (∀ pr ∈ pairs, (pr : TypeSpec × GoType).2.wf = true) ∧
    (∀ g ∈ gs, ∀ nm ∈ (g : String × List String).2,
      ∃ pr ∈ pairs, (pr : TypeSpec × GoType).1 = TypeSpec.mk g.1 nm) := by
  intro gs
  induction gs with
  | nil =>
    intro pairs h
    simp only [resolveGroups, Except.ok.injEq] at h
    rw [← h]
    exact ⟨by simp, by simp⟩
  | cons g rest ih =>
    intro pairs h
    cases g with
    | mk pkg names =>
      cases fuel with
      | zero => rw [resolveGroups] at h; simp at h
      | succ n =>
        rw [resolveGroups] at h
        simp only [Except.bind] at h
        cases hsp : generateTypesInSinglePackage env n pkg names with
        | error e => rw [hsp] at h; simp at h
        | ok types =>
          rw [hsp] at h
          obtain ⟨hvals, hlen⟩ := hsingle pkg names types hsp
          cases hrg : resolveGroups env (n + 1) rest with
          | error e => rw [hrg] at h; simp [Except.map] at h
          | ok more =>
            rw [hrg] at h
            simp only [Except.map, Except.ok.injEq] at h
            obtain ⟨v2, c2⟩ := ih more hrg
            rw [← h]
            constructor
            · intro pr hpr
              rcases List.mem_append.mp hpr with hpr | hpr
              · obtain ⟨q, hq, hqe⟩ := List.mem_map.mp hpr
                have := (List.of_mem_zip hq).2
                rw [← hqe]
                exact hvals q.2 this
              · exact v2 pr hpr
            · intro g hg nm hnm
              rcases List.mem_cons.mp hg with hg | hg
              · subst hg
                obtain ⟨i, hi, hnmi⟩ := List.mem_iff_getElem.mp hnm
                have hi2 : i < names.length := by simpa using hi
                have hit : i < types.length := by rw [hlen]; exact hi2
                have hiz : i < (names.zip types).length := by
                  rw [List.length_zip, hlen]
                  simpa using hi
                refine ⟨(TypeSpec.mk pkg nm, ((names.zip types)[i]).2), ?_, rfl⟩
                apply List.mem_append_left
                have hz : (names.zip types)[i] = (names[i], types[i]) := List.getElem_zip
                have : (fun p => (TypeSpec.mk pkg p.1, p.2)) ((names.zip types)[i])
                    = (TypeSpec.mk pkg nm, ((names.zip types)[i]).2) := by
                  rw [hz]; simp [hnmi]
                rw [← this]
                exact List.mem_map_of_mem _ (List.getElem_mem hiz)
              · obtain ⟨pr, hpr, hk⟩ := c2 g hg nm hnm
                exact ⟨pr, List.mem_append_right _ hpr, hk⟩

/-- The well-formedness invariant holds for every function of the engine
at every fuel level, by induction on fuel. -/
theorem wfBundle_all (env : Env) : ∀ fuel, WfBundle env fuel := by
  intro fuel
  induction fuel with
  | zero =>
    have expr0 : ∀ e pkg im t, generateTypeFromExpr env 0 e pkg im = .ok t → t.wf = true := by
      intro e pkg im t h; rw [generateTypeFromExpr] at h; simp at h
    have single0 : ∀ pkg names res, generateTypesInSinglePackage env 0 pkg names = .ok res →
        (∀ t ∈ res, t.wf = true) ∧ res.length = names.length := by
      intro pkg names res h; rw [generateTypesInSinglePackage] at h; simp at h
    have ifmem0 : ∀ fld pkg im ms, ifaceMemberMethods env 0 fld pkg im = .ok ms →
        wfMethods ms = true := by
      intro fld pkg im ms h; rw [ifaceMemberMethods] at h; simp at h
    have snl0 := snloop_wf env 0 expr0
    have floop0 := floop_wf env 0 expr0
    have snames0 := snames_wf env 0 expr0
    exact {
      gtfs := by intro specs res h; rw [generateTypesFromSpecs] at h; simp at h
      groups := rgroups_wf env 0 single0
      single := single0
      sfiles := fun pkg files remaining rm st hwf h =>
        sfiles_wf env 0 (fun remaining pkg im fileAst rm st hwf h =>
          snames0 remaining pkg im fileAst rm st hwf h) files pkg remaining rm st hwf h
      snames := fun pkg im fileAst remaining rm st hwf h =>
        snames0 remaining pkg im fileAst rm st hwf h
      expr := expr0
      star := by intro x pkg im pt h; rw [generateTypeFromStarExpr] at h; simp at h
      arr := by intro len elt pkg im t h; rw [generateTypeFromArrayType] at h; simp at h
      func := by
        intro params results pkg im ft h
        rw [generateTypeFromFuncType] at h; simp at h
      flist := by
        intro fields names pkg im st h
        cases fields with
        | none =>
          simp only [generateTypeFromFieldList, Except.ok.injEq] at h
          rw [← h]; rfl
        | some fs =>
          simp only [generateTypeFromFieldList] at h
          exact floop0 fs names 0 pkg im st h
      floop := floop0
      mapt := by intro k v pkg im mt h; rw [generateTypeFromMapType] at h; simp at h
      chant := by intro d v pkg im ct h; rw [generateTypeFromChanType] at h; simp at h
      structt := by
        intro fields pkg im st h
        cases fields with
        | none =>
          simp only [generateTypeFromStructType, Except.ok.injEq] at h
          rw [← h]; rfl
        | some fs => rw [generateTypeFromStructType] at h; simp at h
      sfloop := sfloop_wf env 0 snl0
      snloop := snl0
      ifacet := by
        intro methods pkg im it h
        cases methods with
        | none =>
          simp only [generateTypeFromInterfaceType, Except.ok.injEq] at h
          rw [← h]; rfl
        | some fs => rw [generateTypeFromInterfaceType] at h; simp at h
      ifloop := ifloop_wf env 0 ifmem0
      ifmem := ifmem0 }
  | succ n ihn =>
    have floopS := floop_wf env (n + 1) ihn.expr
    have snl := snloop_wf env (n + 1) ihn.expr
    have snamesS := snames_wf env (n + 1) ihn.expr
    refine {
      gtfs := ?gtfs, groups := rgroups_wf env (n + 1) ihn.single, single := ?single,
      sfiles := fun pkg files remaining rm st hwf h =>
        sfiles_wf env (n + 1) (fun remaining pkg im fileAst rm st hwf h =>
          ihn.snames pkg im fileAst remaining rm st hwf h) files pkg remaining rm st hwf h,
      snames := fun pkg im fileAst remaining rm st hwf h =>
        snamesS remaining pkg im fileAst rm st hwf h,
      expr := ?expr, star := ?star, arr := ?arr, func := ?func, flist := ?flist,
      floop := floopS, mapt := ?mapt, chant := ?chant, structt := ?structt,
      sfloop := sfloop_wf env (n + 1) ihn.snloop, snloop := snl, ifacet := ?ifacet,
      ifloop := ifloop_wf env (n + 1) ihn.ifmem, ifmem := ?ifmem }
    case gtfs =>
      intro specs res h
      rw [generateTypesFromSpecs] at h
      cases hr : resolveGroups env n (groupTypeSpecByPackage specs) with
      | error e => rw [hr] at h; simp [Except.map] at h
      | ok pairs =>
        rw [hr] at h
        simp only [Except.map, Except.ok.injEq] at h
        obtain ⟨vals, cover⟩ := ihn.groups _ pairs hr
        intro t ht
        rw [← h] at ht
        obtain ⟨s, hs, hst⟩ := List.mem_map.mp ht
        rw [← hst]
        obtain ⟨g, hgmem, hg1, hg2⟩ := group_cover specs s hs
        obtain ⟨pr, hpr, hk⟩ := cover g hgmem s.name hg2
        apply specLookup_wf pairs vals s
        refine ⟨pr, hpr, ?_⟩
        rw [hk, hg1]
    case single =>
      intro pkg names res h
      rw [generateTypesInSinglePackage] at h
      cases hf : env.getPackageSourceFiles pkg with
      | error e => rw [hf] at h; simp [Except.bind] at h
      | ok files =>
        rw [hf] at h
        simp only [Except.bind] at h
        cases hsc : scanFiles env n pkg files (dedupFirst names) [] with
        | error e => rw [hsc] at h; simp at h
        | ok st =>
          rw [hsc] at h
          obtain ⟨v1, c1, m1⟩ := ihn.sfiles pkg files (dedupFirst names) [] st (by simp) hsc
          obtain ⟨rm, rem⟩ := st
          cases rem with
          | cons r0 rrest => simp at h
          | nil =>
            simp only [Except.ok.injEq] at h
            rw [← h]
            constructor
            · intro t ht
              obtain ⟨nm, hnm, hres⟩ := List.mem_map.mp ht
              rw [← hres]
              apply resultLookup_wf rm v1 nm
              rcases c1 nm (mem_dedupFirst_of_mem names nm hnm) with hc | hc
              · simp at hc
              · exact hc
            · simp
    case expr =>
      intro e pkg im t h
      cases e with
      | ident name =>
        rw [generateTypeFromExpr] at h
        simp only [Except.ok.injEq] at h
        rw [← h]
        exact generateTypeFromIdent_wf name pkg im
      | selectorExpr x sel =>
        rw [generateTypeFromExpr] at h
        exact generateTypeFromSelectorExpr_wf x sel im t h
      | starExpr x =>
        rw [generateTypeFromExpr] at h
        cases hS : generateTypeFromStarExpr env n x pkg im with
        | error e => rw [hS] at h; simp [Except.map] at h
        | ok pt =>
          rw [hS] at h
          simp only [Except.map, Except.ok.injEq] at h
          rw [← h]
          cases pt with
          | mk e' =>
            rw [wf_ofPtr]
            exact ihn.star x pkg im (.mk e') hS
      | arrayType len elt =>
        rw [generateTypeFromExpr] at h
        exact ihn.arr len elt pkg im t h
      | funcType params results =>
        rw [generateTypeFromExpr] at h
        cases hF : generateTypeFromFuncType env n params results pkg im with
        | error e => rw [hF] at h; simp [Except.map] at h
        | ok ft =>
          rw [hF] at h
          simp only [Except.map, Except.ok.injEq] at h
          rw [← h, wf_ofFunc]
          exact ihn.func params results pkg im ft hF
      | mapType key value =>
        rw [generateTypeFromExpr] at h
        cases hM : generateTypeFromMapType env n key value pkg im with
        | error e => rw [hM] at h; simp [Except.map] at h
        | ok mt =>
          rw [hM] at h
          simp only [Except.map, Except.ok.injEq] at h
          rw [← h]
          cases mt with
          | mk kd vd =>
            rw [wf_ofMap]
            exact ihn.mapt key value pkg im (.mk kd vd) hM
      | chanType dir value =>
        rw [generateTypeFromExpr] at h
        cases hC : generateTypeFromChanType env n dir value pkg im with
        | error e => rw [hC] at h; simp [Except.map] at h
        | ok ct =>
          rw [hC] at h
          simp only [Except.map, Except.ok.injEq] at h
          rw [← h]
          cases ct with
          | mk d' e' =>
            rw [wf_ofChan]
            exact ihn.chant dir value pkg im (.mk d' e') hC
      | structType fields =>
        rw [generateTypeFromExpr] at h
        cases hS : generateTypeFromStructType env n fields pkg im with
        | error e => rw [hS] at h; simp [Except.map] at h
        | ok st =>
          rw [hS] at h
          simp only [Except.map, Except.ok.injEq] at h
          rw [← h]
          cases st with
          | mk fs =>
            rw [wf_ofStruct]
            exact ihn.structt fields pkg im (.mk fs) hS
      | interfaceType methods =>
        rw [generateTypeFromExpr] at h
        cases hI : generateTypeFromInterfaceType env n methods pkg im with
        | error e => rw [hI] at h; simp [Except.map] at h
        | ok it =>
          rw [hI] at h
          simp only [Except.map, Except.ok.injEq] at h
          rw [← h]
          cases it with
          | mk ms =>
            rw [wf_ofInterface]
            exact ihn.ifacet methods pkg im (.mk ms) hI
      | basicLit v => simp [generateTypeFromExpr] at h
      | ellipsis elt => simp [generateTypeFromExpr] at h
      | unknownExpr tag => simp [generateTypeFromExpr] at h
    case star =>
      intro x pkg im pt h
      rw [generateTypeFromStarExpr] at h
      cases hT : generateTypeFromExpr env n x pkg im with
      | error e => rw [hT] at h; simp [Except.map] at h
      | ok t =>
        rw [hT] at h
        simp only [Except.map, Except.ok.injEq] at h
        rw [← h]
        exact ihn.expr x pkg im t hT
    case arr =>
      intro len elt pkg im t h
      cases len with
      | none =>
        rw [generateTypeFromArrayType] at h
        cases hT : generateTypeFromExpr env n elt pkg im with
        | error e => rw [hT] at h; simp [Except.map] at h
        | ok te =>
          rw [hT] at h
          simp only [Except.map, Except.ok.injEq] at h
          rw [← h, wf_ofSlice]
          exact ihn.expr elt pkg im te hT
      | some lenExpr =>
        cases lenExpr with
        | basicLit v =>
          rw [generateTypeFromArrayType] at h
          cases hp : parseInt v with
          | none => rw [hp] at h; simp at h
          | some lenn =>
            rw [hp] at h
            cases hT : generateTypeFromExpr env n elt pkg im with
            | error e => rw [hT] at h; simp [Except.map] at h
            | ok te =>
              rw [hT] at h
              simp only [Except.map, Except.ok.injEq] at h
              rw [← h, wf_ofArray]
              exact ihn.expr elt pkg im te hT
        | ident nm => simp [generateTypeFromArrayType] at h
        | selectorExpr a b => simp [generateTypeFromArrayType] at h
        | starExpr a => simp [generateTypeFromArrayType] at h
        | arrayType a b => simp [generateTypeFromArrayType] at h
        | ellipsis a => simp [generateTypeFromArrayType] at h
        | funcType a b => simp [generateTypeFromArrayType] at h
        | mapType a b => simp [generateTypeFromArrayType] at h
        | chanType a b => simp [generateTypeFromArrayType] at h
        | structType a => simp [generateTypeFromArrayType] at h
        | interfaceType a => simp [generateTypeFromArrayType] at h
        | unknownExpr a => simp [generateTypeFromArrayType] at h
    case func =>
      intro params results pkg im ft h
      rw [generateTypeFromFuncType] at h
      cases hp : generateTypeFromFieldList env n (some params) (getInputNamesFromAst params)
          pkg im with
      | error e => rw [hp] at h; simp [Except.bind] at h
      | ok ps =>
        rw [hp] at h
        simp only [Except.bind] at h
        have hpswf := ihn.flist (some params) (getInputNamesFromAst params) pkg im ps hp
        cases results with
        | none =>
          simp only [Except.ok.injEq] at h
          rw [← h]
          simp [FuncType.wf, wfFields, hpswf]
        | some rs =>
          simp only [Except.map] at h
          cases hr : generateTypeFromFieldList env n (some rs) (getOutputNamesFromAst rs)
              pkg im with
          | error e => rw [hr] at h; simp [Except.map] at h
          | ok os =>
            rw [hr] at h
            simp only [Except.map, Except.ok.injEq] at h
            rw [← h]
            simp [FuncType.wf, hpswf, ihn.flist (some rs) (getOutputNamesFromAst rs) pkg im os hr]
    case flist =>
      intro fields names pkg im st h
      cases fields with
      | none =>
        simp only [generateTypeFromFieldList, Except.ok.injEq] at h
        rw [← h]; rfl
      | some fs =>
        simp only [generateTypeFromFieldList] at h
        exact floopS fs names 0 pkg im st h
    case mapt =>
      intro k v pkg im mt h
      rw [generateTypeFromMapType] at h
      cases hK : generateTypeFromExpr env n k pkg im with
      | error e => rw [hK] at h; simp [Except.bind] at h
      | ok kd =>
        rw [hK] at h
        simp only [Except.bind] at h
        cases hV : generateTypeFromExpr env n v pkg im with
        | error e => rw [hV] at h; simp [Except.map] at h
        | ok vd =>
          rw [hV] at h
          simp only [Except.map, Except.ok.injEq] at h
          rw [← h]
          simp [wfOptMap, ihn.expr k pkg im kd hK, ihn.expr v pkg im vd hV]
    case chant =>
      intro d v pkg im ct h
      rw [generateTypeFromChanType] at h
      cases hV : generateTypeFromExpr env n v pkg im with
      | error e => rw [hV] at h; simp [Except.map] at h
      | ok c =>
        rw [hV] at h
        simp only [Except.map, Except.ok.injEq] at h
        rw [← h]
        cases d <;> simp [wfOptChan, ihn.expr v pkg im c hV]
    case structt =>
      intro fields pkg im st h
      cases fields with
      | none =>
        simp only [generateTypeFromStructType, Except.ok.injEq] at h
        rw [← h]; rfl
      | some fs =>
        rw [generateTypeFromStructType] at h
        cases hL : structFieldsLoop env n fs pkg im with
        | error e => rw [hL] at h; simp [Except.map] at h
        | ok tfs =>
          rw [hL] at h
          simp only [Except.map, Except.ok.injEq] at h
          rw [← h]
          exact ihn.sfloop fs pkg im tfs hL
    case ifacet =>
      intro methods pkg im it h
      cases methods with
      | none =>
        simp only [generateTypeFromInterfaceType, Except.ok.injEq] at h
        rw [← h]; rfl
      | some fs =>
        rw [generateTypeFromInterfaceType] at h
        cases hL : lowerIfaceFields env n fs pkg im with
        | error e => rw [hL] at h; simp [Except.map] at h
        | ok ms =>
          rw [hL] at h
          simp only [Except.map, Except.ok.injEq] at h
          rw [← h]
          exact ihn.ifloop fs pkg im ms hL
    case ifmem =>
      intro fld pkg im ms h
      cases fld with
      | mk fnames ftype =>
        cases ftype with
        | funcType params results =>
          cases fnames with
          | nil => rw [ifaceMemberMethods] at h; simp at h
          | cons name rest =>
            rw [ifaceMemberMethods] at h
            cases hF : generateTypeFromFuncType env n params results pkg im with
            | error e => rw [hF] at h; simp [Except.map] at h
            | ok ft =>
              rw [hF] at h
              simp only [Except.map, Except.ok.injEq] at h
              rw [← h]
              simp [wfMethods, ihn.func params results pkg im ft hF]
        | ident tname =>
          rw [ifaceMemberMethods] at h
          cases hG : generateTypesFromSpecs env n [TypeSpec.mk pkg tname] with
          | error e => rw [hG] at h; simp [Except.bind] at h
          | ok inner =>
            rw [hG] at h
            simp only [Except.bind] at h
            cases h0 : inner[0]? with
            | none => rw [h0] at h; simp at h
            | some t0 =>
              rw [h0] at h
              have h2 : (match t0.interfaceType with
                  | none => Except.error (Err.runtimePanic "nil pointer dereference")
                  | some itf => Except.ok itf.methods) = Except.ok ms := h
              cases hit : t0.interfaceType with
              | none => rw [hit] at h2; simp at h2
              | some itf =>
                rw [hit] at h2
                have h3 : Except.ok itf.methods = Except.ok ms := h2
                simp only [Except.ok.injEq] at h3
                rw [← h3]
                have ht0mem : t0 ∈ inner := by
                  obtain ⟨hlt, he⟩ := List.getElem?_eq_some.mp h0
                  exact he ▸ List.getElem_mem hlt
                exact wf_interfaceType t0 itf (ihn.gtfs _ inner hG t0 ht0mem) hit
        | selectorExpr sx sel =>
          cases sx with
          | ident x =>
            rw [ifaceMemberMethods] at h
            cases hG : generateTypesFromSpecs env n [TypeSpec.mk (mapGet im x) sel] with
            | error e => rw [hG] at h; simp [Except.bind] at h
            | ok inner =>
              rw [hG] at h
              simp only [Except.bind] at h
              cases h0 : inner[0]? with
              | none => rw [h0] at h; simp at h
              | some t0 =>
                rw [h0] at h
                have h2 : (match t0.interfaceType with
                    | none => Except.error (Err.runtimePanic "nil pointer dereference")
                    | some itf => Except.ok itf.methods) = Except.ok ms := h
                cases hit : t0.interfaceType with
                | none => rw [hit] at h2; simp at h2
                | some itf =>
                  rw [hit] at h2
                  have h3 : Except.ok itf.methods = Except.ok ms := h2
                  simp only [Except.ok.injEq] at h3
                  rw [← h3]
                  have ht0mem : t0 ∈ inner := by
                    obtain ⟨hlt, he⟩ := List.getElem?_eq_some.mp h0
                    exact he ▸ List.getElem_mem hlt
                  exact wf_interfaceType t0 itf (ihn.gtfs _ inner hG t0 ht0mem) hit
          | selectorExpr a b => simp [ifaceMemberMethods] at h
          | starExpr a => simp [ifaceMemberMethods] at h
          | arrayType a b => simp [ifaceMemberMethods] at h
          | basicLit a => simp [ifaceMemberMethods] at h
          | ellipsis a => simp [ifaceMemberMethods] at h
          | funcType a b => simp [ifaceMemberMethods] at h
          | mapType a b => simp [ifaceMemberMethods] at h
          | chanType a b => simp [ifaceMemberMethods] at h
          | structType a => simp [ifaceMemberMethods] at h
          | interfaceType a => simp [ifaceMemberMethods] at h
          | unknownExpr a => simp [ifaceMemberMethods] at h
        | basicLit v => simp [ifaceMemberMethods] at h; subst h; rfl
        | starExpr a => simp [ifaceMemberMethods] at h; subst h; rfl
        | arrayType a b => simp [ifaceMemberMethods] at h; subst h; rfl
        | ellipsis a => simp [ifaceMemberMethods] at h; subst h; rfl
        | mapType a b => simp [ifaceMemberMethods] at h; subst h; rfl
        | chanType a b => simp [ifaceMemberMethods] at h; subst h; rfl
        | structType a => simp [ifaceMemberMethods] at h; subst h; rfl
        | interfaceType a => simp [ifaceMemberMethods] at h; subst h; rfl
        | unknownExpr a => simp [ifaceMemberMethods] at h; subst h; rfl

/-- Claim C8: every canonical type value returned by a successful
lowering is well-formed; exactly one of the ten variant fields is
populated, recursively at every nested canonical type inside the
result. -/
theorem claim_C8 (env : Env) (fuel : Nat) (e : Expr) (pkg : String) (im : ImportMap)
    (t : GoType) (h : generateTypeFromExpr env fuel e pkg im = .ok t) : t.wf = true :=
  (wfBundle_all env fuel).expr e pkg im t h

/-- Claim C8 witness: the lowering of `map[string]*int` succeeds and the
result is well-formed. -/
theorem claim_C8_witness :
    (GoType.ofMap (.mk (.ofPrim .string) (.ofPtr (.mk (.ofPrim .int))))).wf = true := by
  have hcomp : generateTypeFromExpr env0 5 (.mapType (.ident "string") (.starExpr (.ident "int")))
      "p" [] = .ok (GoType.ofMap (.mk (.ofPrim .string) (.ofPtr (.mk (.ofPrim .int))))) := by
    simp [generateTypeFromExpr, generateTypeFromMapType, generateTypeFromStarExpr,
      generateTypeFromIdent, Except.bind, Except.map]
  exact claim_C8 env0 5 (.mapType (.ident "string") (.starExpr (.ident "int"))) "p" [] _ hcomp

end Gotype
